import Mathlib

/-!
# kuboard-spray: `server/api/command/execute.go`

A shallow embedding of the recap parsing, the run identifier and the control
flow of `Execute.exec`, with the properties proved about them.

Go strings are byte sequences.  A string is modelled as the list of its
bytes, each byte written as a `Char`; every constant the program compares
against is ASCII.  Indexing and slicing that panics in Go returns
`Except.error` here.
-/

set_option autoImplicit false
set_option maxRecDepth 100000

namespace Kuboard

/-- A Go string: the list of its bytes. -/
abbrev Str := List Char

/-- The run-time panics the code can raise: an index out of range, slice
bounds out of range, and the call of a nil function value. -/
inductive Panic where
  | indexOutOfRange
  | sliceBounds
  | nilFunction
  deriving DecidableEq, Repr

/-! ## The `strings` functions used by the source -/

/-- First index of `sub` in `s` as a natural number, `none` when absent. -/
def indexNat (sub : Str) : Str → Option Nat
  | [] => if sub = [] then some 0 else none
  | c :: cs =>
    if sub.isPrefixOf (c :: cs) then some 0
    else (indexNat sub cs).map (· + 1)

/-- Last index of `sub` in `s` as a natural number, `none` when absent. -/
def lastIndexNat (sub : Str) : Str → Option Nat
  | [] => if sub = [] then some 0 else none
  | c :: cs =>
    match lastIndexNat sub cs with
    | some i => some (i + 1)
    | none => if sub.isPrefixOf (c :: cs) then some 0 else none

/-- Go `strings.Index(s, substr)`: index of the first instance, or -1. -/
def Index (s sub : Str) : Int :=
  match indexNat sub s with
  | some i => (i : Int)
  | none => -1

/-- Go `strings.LastIndex(s, substr)`: index of the last instance, or -1. -/
def LastIndex (s sub : Str) : Int :=
  match lastIndexNat sub s with
  | some i => (i : Int)
  | none => -1

/-- Go `s[i:]`: panics unless `0 ≤ i ≤ len(s)`. -/
def sliceFrom (s : Str) (i : Int) : Except Panic Str :=
  if 0 ≤ i ∧ i ≤ (s.length : Int) then .ok (s.drop i.toNat) else .error .sliceBounds

/-- Go `s[:j]`: panics unless `0 ≤ j ≤ len(s)`. -/
def sliceTo (s : Str) (j : Int) : Except Panic Str :=
  if 0 ≤ j ∧ j ≤ (s.length : Int) then .ok (s.take j.toNat) else .error .sliceBounds

/-- Go `strings.Split(s, sep)` for a one-byte separator, which is what all
four call sites pass: the pieces between the separators, `[s]` when there is
none, so the result is never empty. -/
def Split : Str → Char → List Str
  | [], _ => [[]]
  | c :: cs, sep =>
    if c = sep then [] :: Split cs sep
    else
      match Split cs sep with
      | [] => [[c]]
      | h :: t => (c :: h) :: t

/-- Go `strings.Trim(s, cutset)`: `s` without the leading and trailing bytes
that are in `cutset`. -/
def Trim (s cutset : Str) : Str :=
  ((s.dropWhile (fun c => cutset.contains c)).reverse.dropWhile
    (fun c => cutset.contains c)).reverse

/-- Go `xs[i]` on a slice: panics when `i` is out of range. -/
def idx (xs : List Str) (i : Nat) : Except Panic Str :=
  match xs.get? i with
  | some x => .ok x
  | none => .error .indexOutOfRange

/-! ## `map[string]string` -/

/-- A Go `map[string]string` as an association list, newest binding first. -/
abbrev GoMap := List (Str × Str)

/-- Go `m[k] = v`. -/
def mapSet (m : GoMap) (k v : Str) : GoMap := (k, v) :: m

/-- Go `m[k]`: the zero value `""` for a missing key. -/
def mapGet (m : GoMap) (k : Str) : Str :=
  match m.lookup k with
  | some v => v
  | none => []

/-! ## `parseAnsibleRecapLine` -/

/-- The type `ExecuteExitNodeStatus`. -/
structure ExecuteExitNodeStatus where
  NodeName : Str
  OK : Str
  Changed : Str
  Unreachable : Str
  Failed : Str
  Skipped : Str
  Rescued : Str
  Ignored : Str
  deriving DecidableEq, Repr

/-- One iteration of the loop over `s2` in `parseAnsibleRecapLine`. -/
def kvStep (result : GoMap) (kv : Str) : Except Panic GoMap :=
  let s3 := Split kv '='
  if s3.length = 1 then .ok result
  else do
    let k0 ← idx s3 0
    let v0 ← idx s3 1
    .ok (mapSet result (Trim k0 [' ']) (Trim v0 [' ']))

/-- The loop `for _, kv := range s2`. -/
def kvLoop : GoMap → List Str → Except Panic GoMap
  | result, [] => .ok result
  | result, kv :: rest => do
    let r ← kvStep result kv
    kvLoop r rest

/-- The record built at the end of `parseAnsibleRecapLine`; the source reads
the key `rescured` for the field `Rescued`. -/
def nodeStatusOf (result : GoMap) : ExecuteExitNodeStatus :=
  { NodeName := mapGet result "node".toList
    OK := mapGet result "ok".toList
    Changed := mapGet result "changed".toList
    Unreachable := mapGet result "unreachable".toList
    Failed := mapGet result "failed".toList
    Skipped := mapGet result "skipped".toList
    Rescued := mapGet result "rescured".toList
    Ignored := mapGet result "ignored".toList }

/-- The function `parseAnsibleRecapLine`. -/
def parseAnsibleRecapLine (line : Str) : Except Panic ExecuteExitNodeStatus := do
  let s1 := Split line ':'
  let n ← idx s1 0
  let result := mapSet [] "node".toList (Trim n [' '])
  let t ← idx s1 1
  let s2 := Split t ' '
  let result ← kvLoop result s2
  .ok (nodeStatusOf result)

/-! ## The recap parsing of `exec` (lines 151-172) -/

/-- The banner literal searched for in the log. -/
def banner : Str :=
  "PLAY RECAP *********************************************************************".toList

/-- The loop `for _, line := range lines` that appends one record per line. -/
def parseLines : List Str → Except Panic (List ExecuteExitNodeStatus)
  | [] => .ok []
  | l :: ls => do
    let s ← parseAnsibleRecapLine l
    let rest ← parseLines ls
    .ok (s :: rest)

/-- The loop that computes `success` from the records. -/
def aggregateSuccess (status : List ExecuteExitNodeStatus) : Bool :=
  status.foldl
    (fun success nodestatus =>
      if nodestatus.Unreachable ≠ ['0'] ∨ nodestatus.Failed ≠ ['0'] then false else success)
    true

/-- The part of `ExecuteExitStatus` that the recap parsing computes. -/
structure RecapOutcome where
  Success : Bool
  NodeStatus : List ExecuteExitNodeStatus
  deriving DecidableEq, Repr

/-- The text between the banner and the first blank line (lines 152-153). -/
def recapBlock (logStr : Str) : Except Panic Str := do
  let recap ← sliceFrom logStr (LastIndex logStr banner + 81)
  sliceTo recap (Index recap ['\n', '\n'])

/-- The recap parsing of `exec`, from `logStr` to `success` and `status`. -/
def parseRecap (logStr : Str) : Except Panic RecapOutcome := do
  let recap ← recapBlock logStr
  let lines := Split recap '\n'
  let status ← parseLines lines
  .ok { Success := aggregateSuccess status, NodeStatus := status }

/-! ## The run identifier (line 80) -/

/-- The wall-clock reading `time.Now()` returns, by its calendar fields in
the local zone: these are what line 80 prints.  The offset of the zone is
not part of the layout and so not of the reading. -/
structure Instant where
  year : Nat
  month : Nat
  day : Nat
  hour : Nat
  minute : Nat
  second : Nat
  nano : Nat
  deriving DecidableEq, Repr

/-- The field ranges of a reading with a four-digit year. -/
def Instant.Valid (t : Instant) : Prop :=
  t.year ≤ 9999 ∧ 1 ≤ t.month ∧ t.month ≤ 12 ∧ 1 ≤ t.day ∧ t.day ≤ 31 ∧
    t.hour ≤ 23 ∧ t.minute ≤ 59 ∧ t.second ≤ 59 ∧ t.nano ≤ 999999999

/-- The millisecond the reading falls in. -/
def Instant.milli (t : Instant) : Nat := t.nano / 1000000

/-- The reading `t1` lies in an earlier whole second than `t2`. -/
def Instant.secBefore (t1 t2 : Instant) : Prop :=
  t1.year < t2.year ∨ (t1.year = t2.year ∧
    (t1.month < t2.month ∨ (t1.month = t2.month ∧
      (t1.day < t2.day ∨ (t1.day = t2.day ∧
        (t1.hour < t2.hour ∨ (t1.hour = t2.hour ∧
          (t1.minute < t2.minute ∨ (t1.minute = t2.minute ∧
            t1.second < t2.second)))))))))

/-- Both readings lie in the same whole second. -/
def Instant.sameSecond (t1 t2 : Instant) : Prop :=
  t1.year = t2.year ∧ t1.month = t2.month ∧ t1.day = t2.day ∧ t1.hour = t2.hour ∧
    t1.minute = t2.minute ∧ t1.second = t2.second

/-- The reading `t1` lies in an earlier calendar millisecond than `t2`.
Two instants `t1 < t2` at least one millisecond apart give readings in this
order when the local zone has the same offset at both.  Where the offset
steps back between them (the end of daylight saving time) the later instant
can have an equal or an earlier reading; such pairs are not in this relation
and nothing is proved about them. -/
def Instant.milliBefore (t1 t2 : Instant) : Prop :=
  t1.secBefore t2 ∨ (t1.sameSecond t2 ∧ t1.milli < t2.milli)

/-- The byte `'0' + d`. -/
def digit (d : Nat) : Char := Char.ofNat (48 + d)

/-- Two decimal digits, zero padded (layout elements `01 02 15 04 05`). -/
def pad2 (n : Nat) : Str := [digit (n / 10 % 10), digit (n % 10)]

/-- Four decimal digits, zero padded (layout element `2006`). -/
def pad4 (n : Nat) : Str :=
  [digit (n / 1000 % 10), digit (n / 100 % 10), digit (n / 10 % 10), digit (n % 10)]

/-- The three digits of the millisecond with the trailing zeros removed. -/
def fracDigits (ms : Nat) : List Nat :=
  ([ms / 100 % 10, ms / 10 % 10, ms % 10].reverse.dropWhile (fun d => d == 0)).reverse

/-- The layout element `.999`: nothing for a zero fraction, else a dot and
the digits left after the trailing zeros are removed. -/
def formatFrac (ms : Nat) : Str :=
  match fracDigits ms with
  | [] => []
  | ds => '.' :: ds.map digit

/-- A reading on a whole second. -/
def wholeSecond : Instant :=
  { year := 2024, month := 5, day := 17, hour := 9, minute := 3, second := 7, nano := 0 }

/-- The reading one millisecond after `wholeSecond`. -/
def oneMilliLater : Instant := { wholeSecond with nano := 1000000 }

/-- The reading one second after `wholeSecond`. -/
def oneSecondLater : Instant := { wholeSecond with second := 8 }

/-- The first nineteen bytes of the formatted time, down to the seconds. -/
def formatSeconds (t : Instant) : Str :=
  pad4 t.year ++ '-' :: pad2 t.month ++ '-' :: pad2 t.day ++ '_' :: pad2 t.hour
    ++ '-' :: pad2 t.minute ++ '-' :: pad2 t.second

/-- The result of `time.Format` for the layout `2006-01-02_15-04-05.999`. -/
def formatTime (t : Instant) : Str :=
  pad4 t.year ++ '-' :: pad2 t.month ++ '-' :: pad2 t.day ++ '_' :: pad2 t.hour
    ++ '-' :: pad2 t.minute ++ '-' :: pad2 t.second ++ formatFrac t.milli

/-- The run identifier `pid` of line 80. -/
def runId (t : Instant) (type : Str) : Str := formatTime t ++ '_' :: type

/-- Go `a < b` on strings: bytewise lexicographic order. -/
def strLess : Str → Str → Bool
  | [], [] => false
  | [], _ :: _ => true
  | _ :: _, [] => false
  | a :: as, b :: bs =>
    if a.toNat < b.toNat then true
    else if b.toNat < a.toNat then false
    else strLess as bs

/-! ## `Execute`, the steps of `exec` and what they can do -/

/-- The type `ExecuteExitStatus`. -/
structure ExecuteExitStatus where
  Success : Bool
  NodeStatus : List ExecuteExitNodeStatus
  Pid : Str
  RunDir : Str
  deriving DecidableEq, Repr

/-- The fields of `Execute` that `Exec` and `exec` read, with the values they
hold when `Exec` is called (`Type_` is the field `Type`).  A Go `error` is
`none` for `nil` and `some` of its message otherwise; a function field that
is `nil` is `none`.  `R_Error` is `nil` in a fresh `Execute` and is whatever
an earlier run left there in one that is used again: `Exec` does not reset
it.  A hook that is called is taken to return. -/
structure Execute where
  Cmd : Str
  Args : Option (Str → List Str)
  Cluster : Str
  Type_ : Str
  PreExec : Option (Str → Option Str)
  PostExec : Option (ExecuteExitStatus → Str × Option Str)
  Dir : Str
  Env : List Str
  R_Error : Option Str

/-- The method `ToString`; the call `execute.Args(runDirPath)` of line 39
panics when `Args` is nil. -/
def Execute.ToString (execute : Execute) (runDirPath pid : Str) : Except Panic Str :=
  match execute.Args with
  | none => .error Panic.nilFunction
  | some argsOf =>
  let result := "---".toList
  let result := result ++ "\ncluster: ".toList ++ execute.Cluster
  let result := result ++ "\nhistory: ".toList ++ runDirPath
  let result := result ++ "\npid: ".toList ++ pid
  let result := result ++ "\ndir: ".toList ++ execute.Dir
  let result := result ++ "\ncmd: ".toList ++ execute.Cmd
  let result := result ++ "\nargs:".toList
  let args := argsOf runDirPath
  let result := args.foldl (fun r arg => r ++ "\n  - ".toList ++ arg) result
  let result := result ++ "\nenv:".toList
  let result := execute.Env.foldl (fun r env => r ++ "\n - ".toList ++ env) result
  let result := result ++ "\nshell: cd ".toList ++ execute.Dir
  let result :=
    execute.Env.foldl (fun r env => r ++ " && export \"".toList ++ env ++ "\"".toList) result
  let result := result ++ " && ".toList ++ execute.Cmd
  let result := args.foldl (fun r arg => r ++ " ".toList ++ arg) result
  .ok result

/-- What the outside world answers to each step of one run of `exec`: the
data directory, the clock, and for every fallible call its error (`none`
when it succeeds).  Every call is taken to return. -/
structure World where
  dataDir : Str
  now : Instant
  lockCluster : Except Str Nat
  createHistoryDir : Option Str
  createRunDir : Option Str
  openFile : Option Str
  cmdString : Str
  start : Option Str
  writeCommandString : Option Str
  writeCommandYaml : Option Str
  truncate : Option Str
  writePid : Option Str
  readFile : Except Str Str
  addSuccessTask : Option Str

/-- The calls `exec` makes, in the order it makes them.  `MutexUnlock`
carries the value `R_Error` has when the mutex is released, which is what
`Exec` returns. -/
inductive Event where
  | LockCluster (cluster : Str)
  | CreateDirIfNotExists (path : Str)
  | PreExec (runDirPath : Str)
  | OpenFile (path : Str)
  | Start
  | Remove (path : Str)
  | WriteFile (path content : Str)
  | Truncate
  | LockWriteString (pid : Str)
  | MutexUnlock (rError : Option Str)
  | Wait
  | LogWriteString (text : Str)
  | ReadFile (path : Str)
  | PostExec (exitStatus : ExecuteExitStatus)
  | AddSuccessTask (cluster type pid : Str)
  | Panicked (p : Panic)
  | LogClose
  | LogSync
  | UnlockCluster (lockFile : Nat)
  deriving DecidableEq, Repr

/-- The divider written to the log before it is read back (line 146). -/
def divider : Str :=
  "\n\n\nKUBOARD SPRAY *****************************************************************\n".toList

/-- Lines 167-190: the exit status is handed to `PostExec`, its error is
written to the log, the success task is added when `success` holds, and the
message of the hook is written to the log. -/
def reportOutcome (execute : Execute) (postExec : ExecuteExitStatus → Str × Option Str)
    (o : RecapOutcome) (pid runDirPath : Str) : List Event :=
  let exitStatus : ExecuteExitStatus :=
    { Success := o.Success, NodeStatus := o.NodeStatus, Pid := pid, RunDir := runDirPath }
  let result := postExec exitStatus
  [Event.PostExec exitStatus]
    ++ (match result.2 with
        | some m => [Event.LogWriteString ("Error in PostExec: ".toList ++ m ++ "\n".toList)]
        | none => [])
    ++ (if o.Success then [Event.AddSuccessTask execute.Cluster execute.Type_ pid] else [])
    ++ [Event.LogWriteString result.1]

/-- Lines 145-191: what `exec` does after `cmd.Wait()`.  A panic of the
recap parsing ends the function at that point. -/
def finalize (execute : Execute) (w : World) (pid runDirPath logFilePath : Str) :
    List Event :=
  match execute.PostExec with
  | none => []
  | some postExec =>
    [Event.LogWriteString divider, Event.ReadFile logFilePath] ++
    match w.readFile with
    | .error _ => []
    | .ok logStr =>
      match parseRecap logStr with
      | .error p => [Event.Panicked p]
      | .ok o => reportOutcome execute postExec o pid runDirPath

/-- Lines 114-191: from `exec.Command` on, with the log file open.  The
second component is `R_Error`, which starts with the value the field has
when `Exec` is called.  Line 114 calls `execute.Args`, which panics when it
is nil; a panic ends the function at that point, with the mutex still held. -/
def runCommand (execute : Execute) (w : World) (pid runDirPath logFilePath : Str) :
    List Event × Option Str :=
  match execute.Args with
  | none => ([Event.Panicked Panic.nilFunction], execute.R_Error)
  | some _ =>
    match w.start with
    | some err =>
      let rError :=
        some ("failed to start command ".toList ++ w.cmdString ++ " : ".toList ++ err)
      ([Event.Start, Event.Remove runDirPath, Event.MutexUnlock rError], rError)
    | none =>
      match execute.ToString runDirPath pid with
      | .error p =>
        ([Event.Start,
          Event.WriteFile (runDirPath ++ "/command.string".toList) w.cmdString,
          Event.Panicked p], execute.R_Error)
      | .ok yaml =>
        let rError := execute.R_Error
        let rError :=
          match w.truncate with
          | some err => some ("failed to truncate lockFile : ".toList ++ err)
          | none => rError
        let rError :=
          match w.writePid with
          | some err => some ("failed to write pid ".toList ++ err)
          | none => rError
        ([Event.Start,
          Event.WriteFile (runDirPath ++ "/command.string".toList) w.cmdString,
          Event.WriteFile (runDirPath ++ "/command.yaml".toList) yaml,
          Event.Truncate, Event.LockWriteString pid, Event.MutexUnlock rError, Event.Wait]
          ++ finalize execute w pid runDirPath logFilePath, rError)

/-- Lines 80-191: the body of `exec` once the cluster is locked, without the
deferred `UnlockCluster`.  The deferred `logFile.Close()` and
`logFile.Sync()` run, in that order, when the part after line 112 ends. -/
def execLocked (execute : Execute) (w : World) : List Event × Option Str :=
  let pid := runId w.now execute.Type_
  let historyPath := w.dataDir ++ "/".toList ++ execute.Cluster ++ "/history".toList
  match w.createHistoryDir with
  | some err =>
    let rError :=
      some ("cannot create historyDir : ".toList ++ historyPath ++ " : ".toList ++ err)
    ([Event.CreateDirIfNotExists historyPath, Event.MutexUnlock rError], rError)
  | none =>
    let runDirPath := w.dataDir ++ "/".toList ++ execute.Cluster ++ "/history/".toList ++ pid
    match w.createRunDir with
    | some err =>
      let rError :=
        some ("cannot create runDir : ".toList ++ runDirPath ++ " : ".toList ++ err)
      ([Event.CreateDirIfNotExists historyPath, Event.CreateDirIfNotExists runDirPath,
        Event.MutexUnlock rError], rError)
    | none =>
      let dirs := [Event.CreateDirIfNotExists historyPath, Event.CreateDirIfNotExists runDirPath]
      let preErr : Option Str :=
        match execute.PreExec with
        | some preExec => preExec runDirPath
        | none => none
      let pre :=
        match execute.PreExec with
        | some _ => [Event.PreExec runDirPath]
        | none => []
      match preErr with
      | some err =>
        let rError := some ("failed to prepare for the task : ".toList ++ err)
        (dirs ++ pre ++ [Event.MutexUnlock rError], rError)
      | none =>
        let logFilePath := runDirPath ++ "/command.log".toList
        match w.openFile with
        | some err =>
          let rError :=
            some ("cannot create logFile : ".toList ++ logFilePath ++ " : ".toList ++ err)
          (dirs ++ pre ++ [Event.OpenFile logFilePath, Event.MutexUnlock rError], rError)
        | none =>
          let r := runCommand execute w pid runDirPath logFilePath
          (dirs ++ pre ++ [Event.OpenFile logFilePath] ++ r.1
            ++ [Event.LogClose, Event.LogSync], r.2)

/-- The outcome of one run of `exec`: the calls made and the final `R_Error`. -/
structure Run where
  events : List Event
  R_Error : Option Str

/-- The method `exec`. -/
def exec (execute : Execute) (w : World) : Run :=
  match w.lockCluster with
  | .error err =>
    { events := [Event.LockCluster execute.Cluster, Event.MutexUnlock (some err)]
      R_Error := some err }
  | .ok lockFile =>
    let r := execLocked execute w
    { events := Event.LockCluster execute.Cluster :: r.1 ++ [Event.UnlockCluster lockFile]
      R_Error := r.2 }

/-- The value a call hands to the caller of `Exec`: the `R_Error` carried by
`MutexUnlock`. -/
def handedOver : Event → Option (Option Str)
  | Event.MutexUnlock rError => some rError
  | _ => none

/-- The method `Exec`: it waits for `exec` to release the mutex and returns
the `R_Error` of that moment; it is `none` when `exec` never releases the
mutex, so that `Exec` does not return. -/
def Exec (execute : Execute) (w : World) : Option (Option Str) :=
  (exec execute w).events.findSome? handedOver

/-- The lines of a block joined by single newlines (or any one-byte separator). -/
def joinSep (sep : Char) : List Str → Str
  | [] => []
  | [l] => l
  | l :: l2 :: ls => l ++ sep :: joinSep sep (l2 :: ls)

/-- The pair a token contributes to the map: `none` for a token without `=`
(the `continue` branch), else its first two `=`-separated pieces, trimmed. -/
def tokenPair (kv : Str) : Option (Str × Str) :=
  match Split kv '=' with
  | k :: v :: _ => some (Trim k [' '], Trim v [' '])
  | _ => none

/-- The map `parseAnsibleRecapLine` has built when it reaches its last
statement, for the name part `a` and the counter part `b` of a line. -/
def recapMap (a b : Str) : GoMap :=
  ((Split b ' ').filterMap tokenPair).reverse ++ [("node".toList, Trim a [' '])]

/-- A `key=value` token: no space, colon, newline or further `=` in the key
or in the value. -/
def IsToken (t : Str) : Prop :=
  ∃ k v, t = k ++ '=' :: v ∧ ∀ c ∈ k ++ v, c ≠ ' ' ∧ c ≠ ':' ∧ c ≠ '=' ∧ c ≠ '\n'

/-- A recap line `nodename : key=value ...`: a non-empty node name without
space, colon or newline, any number of spaces, a colon, and then tokens
separated by one or more spaces (an empty segment stands for an extra space,
as in the column-aligned output of the tool). -/
def RecapLine (l : Str) : Prop :=
  ∃ name n segs, l = name ++ List.replicate n ' ' ++ ':' :: joinSep ' ' segs ∧
    name ≠ [] ∧ (∀ c ∈ name, c ≠ ' ' ∧ c ≠ ':' ∧ c ≠ '\n') ∧
    ∀ s ∈ segs, s = [] ∨ IsToken s

/-- What a piece other than the first looks like when a recap line is split
at its spaces. -/
def PieceOk (p : Str) : Prop := p = [] ∨ (∃ q, p = ':' :: q) ∨ '=' ∈ p

/-- The first line of the two-node example block. -/
def lineA : Str := "nodeA : ok=3 changed=1 unreachable=0 failed=0".toList

/-- The second line of the two-node example block. -/
def lineB : Str := "nodeB : ok=2 changed=0 unreachable=0 failed=1".toList

/-- A log around the two-node example block. -/
def twoNodeLog : Str :=
  "PLAY [all] ***\n".toList ++ banner ++ ['\n'] ++ joinSep '\n' [lineA, lineB]
    ++ ['\n', '\n'] ++ "\nKUBOARD SPRAY ***\n".toList

/-- A recap line that carries `unreachable=0` and `failed=0` and no other
value for either key. -/
def CarriesZero (l : Str) : Prop :=
  ∃ name n segs, l = name ++ List.replicate n ' ' ++ ':' :: joinSep ' ' segs ∧
    name ≠ [] ∧ (∀ c ∈ name, c ≠ ' ' ∧ c ≠ ':' ∧ c ≠ '\n') ∧
    (∀ s ∈ segs, s = [] ∨ IsToken s) ∧
    "unreachable=0".toList ∈ segs ∧ "failed=0".toList ∈ segs ∧
    (∀ v, "unreachable=".toList ++ v ∈ segs → v = ['0']) ∧
    (∀ v, "failed=".toList ++ v ∈ segs → v = ['0'])

/-- How the part of `exec` before the process runs can end. -/
inductive StartOutcome where
  | failed (err : Str)
  | panicked
  | started
  deriving DecidableEq, Repr

/-- How the part of `exec` before the process runs ends: `failed` with the
error of the first step that fails, in the order of the steps (`LockCluster`,
the two `CreateDirIfNotExists`, `PreExec`, `os.OpenFile`, `cmd.Start`), as
`exec` words it; `panicked` when all steps up to `os.OpenFile` succeed and
`Args` is nil, which line 114 calls; `started` when the process starts. -/
def startOutcome (execute : Execute) (w : World) : StartOutcome :=
  let pid := runId w.now execute.Type_
  let historyPath := w.dataDir ++ "/".toList ++ execute.Cluster ++ "/history".toList
  let runDirPath := w.dataDir ++ "/".toList ++ execute.Cluster ++ "/history/".toList ++ pid
  let logFilePath := runDirPath ++ "/command.log".toList
  match w.lockCluster with
  | .error err => StartOutcome.failed err
  | .ok _ =>
    match w.createHistoryDir with
    | some err =>
      StartOutcome.failed
        ("cannot create historyDir : ".toList ++ historyPath ++ " : ".toList ++ err)
    | none =>
      match w.createRunDir with
      | some err =>
        StartOutcome.failed
          ("cannot create runDir : ".toList ++ runDirPath ++ " : ".toList ++ err)
      | none =>
        match execute.PreExec.bind (fun preExec => preExec runDirPath) with
        | some err => StartOutcome.failed ("failed to prepare for the task : ".toList ++ err)
        | none =>
          match w.openFile with
          | some err =>
            StartOutcome.failed
              ("cannot create logFile : ".toList ++ logFilePath ++ " : ".toList ++ err)
          | none =>
            match execute.Args with
            | none => StartOutcome.panicked
            | some _ =>
              match w.start with
              | some err =>
                StartOutcome.failed
                  ("failed to start command ".toList ++ w.cmdString ++ " : ".toList ++ err)
              | none => StartOutcome.started

/-- The error of the lock-file update after a successful start (lines
132-138): the one of `WriteString` when it fails, else the one of `Truncate`. -/
def lockFileError (w : World) : Option Str :=
  match w.writePid with
  | some err => some ("failed to write pid ".toList ++ err)
  | none =>
    match w.truncate with
    | some err => some ("failed to truncate lockFile : ".toList ++ err)
    | none => none

/-- What `Exec` returns when the process has started: the error of the
lock-file update when there is one, else the value `R_Error` had when `Exec`
was called. -/
def returnedAfterStart (execute : Execute) (w : World) : Option Str :=
  match lockFileError w with
  | some err => some err
  | none => execute.R_Error

/-- What `Exec` returns, by the outcome of the steps before the process
runs; `none` when it does not return. -/
def returned (execute : Execute) (w : World) : Option (Option Str) :=
  match startOutcome execute w with
  | StartOutcome.failed err => some (some err)
  | StartOutcome.panicked => none
  | StartOutcome.started => some (returnedAfterStart execute w)

/-- The aggregate success of the run: the `Success` the recap parsing gives
on the log of the run, when the log can be read and parsed. -/
def runSuccess (w : World) : Option Bool :=
  match w.readFile with
  | .error _ => none
  | .ok logStr =>
    match parseRecap logStr with
    | .error _ => none
    | .ok o => some o.Success

/-- Whether a call is `AddSuccessTask`. -/
def isAddSuccessTask : Event → Bool
  | Event.AddSuccessTask _ _ _ => true
  | _ => false

/-- Whether a call is `UnlockCluster`. -/
def isUnlockCluster : Event → Bool
  | Event.UnlockCluster _ => true
  | _ => false

/-- A job without hooks. -/
def plainJob : Execute :=
  { Cmd := "ansible-playbook".toList
    Args := some (fun runDirPath => ["-i".toList, runDirPath ++ "/inventory.yaml".toList])
    Cluster := "c1".toList
    Type_ := "install".toList
    PreExec := none
    PostExec := none
    Dir := "/data".toList
    Env := ["ANSIBLE_FORCE_COLOR=1".toList]
    R_Error := none }

/-- The job `plainJob` used again after a run that left an error behind. -/
def usedJob : Execute := { plainJob with R_Error := some "cannot create logFile".toList }

/-- The job `plainJob` without its `Args`. -/
def noArgsJob : Execute := { plainJob with Args := none }

/-- A job with a `PostExec` hook that fails. -/
def hookedJob : Execute :=
  { plainJob with
    PostExec := some (fun _ => ("done\n".toList, some "hook failed".toList)) }

/-- A log whose recap has the single line of `nodeA`, all zero. -/
def zeroLog : Str :=
  "PLAY [all] ***\n".toList ++ banner ++ ['\n'] ++ joinSep '\n' [lineA]
    ++ ['\n', '\n'] ++ "\nKUBOARD SPRAY ***\n".toList

/-- A world in which every step succeeds and the log is `zeroLog`. -/
def goodWorld : World :=
  { dataDir := "/data/inventory".toList
    now := { year := 2024, month := 5, day := 17, hour := 9, minute := 3, second := 7,
             nano := 120000000 }
    lockCluster := .ok 3
    createHistoryDir := none
    createRunDir := none
    openFile := none
    cmdString := "ansible-playbook -i inventory.yaml".toList
    start := none
    writeCommandString := none
    writeCommandYaml := none
    truncate := none
    writePid := none
    readFile := .ok zeroLog
    addSuccessTask := none }

/-- A log without the banner: a first line of 79 bytes and its newline, one
line of host counters, and the divider `exec` appends before it reads the
log back. -/
def bannerFreeLog : Str :=
  "ERROR: the playbook run was interrupted before the summary could be printed ...\n".toList
    ++ "node1 : ok=5 changed=0 unreachable=0 failed=0".toList
    ++ "\n\n\nKUBOARD SPRAY *****************************************************************\n".toList

/-- A line whose `failed=0` token stands after a second colon. -/
def twoColonLine : Str := "node1 : ok=1 unreachable=0 : failed=0".toList

/-- A well-formed line with a `rescued` counter. -/
def rescuedLine : Str := "node1 : ok=1 rescued=2".toList

/-! ## Facts about `Split` -/

theorem Split_ne_nil (s : Str) (sep : Char) : Split s sep ≠ [] := by
  induction s with
  | nil => simp [Split]
  | cons c cs ih =>
    unfold Split
    split
    · simp
    · split <;> simp

theorem Split_not_mem (s : Str) (sep : Char) (h : sep ∉ s) : Split s sep = [s] := by
  induction s with
  | nil => simp [Split]
  | cons c cs ih =>
    have hc : c ≠ sep := fun e => h (by simp [e])
    have hcs : sep ∉ cs := fun e => h (by simp [e])
    simp [Split, hc, ih hcs]

theorem Split_append_sep (a r : Str) (sep : Char) :
    Split (a ++ sep :: r) sep = Split a sep ++ Split r sep := by
  induction a with
  | nil => simp [Split]
  | cons c cs ih =>
    by_cases hc : c = sep
    · simp [Split, hc, ih]
    · cases hs : Split cs sep with
      | nil => exact absurd hs (Split_ne_nil cs sep)
      | cons h t => simp [Split, hc, ih, hs]

theorem Split_first (a r : Str) (sep : Char) (h : sep ∉ a) :
    Split (a ++ sep :: r) sep = a :: Split r sep := by
  rw [Split_append_sep, Split_not_mem a sep h]; rfl

theorem Split_joinSep (sep : Char) (ls : List Str) (hne : ls ≠ [])
    (h : ∀ l ∈ ls, sep ∉ l) : Split (joinSep sep ls) sep = ls := by
  induction ls with
  | nil => exact absurd rfl hne
  | cons l rest ih =>
    cases rest with
    | nil => simpa [joinSep] using Split_not_mem l sep (h l (by simp))
    | cons l2 ls =>
      have h1 : sep ∉ l := h l (by simp)
      have h2 : ∀ x ∈ l2 :: ls, sep ∉ x := fun x hx => h x (by simp [hx])
      simp only [joinSep]
      rw [Split_first _ _ _ h1, ih (by simp) h2]

theorem mem_split_sep (s : Str) (sep : Char) (h : sep ∈ s) :
    ∃ a r, s = a ++ sep :: r ∧ sep ∉ a := by
  induction s with
  | nil => simp at h
  | cons c cs ih =>
    by_cases hc : c = sep
    · exact ⟨[], cs, by simp [hc], by simp⟩
    · have : sep ∈ cs := by
        rcases List.mem_cons.mp h with e | e
        · exact absurd e.symm hc
        · exact e
      obtain ⟨a, r, e, ha⟩ := ih this
      refine ⟨c :: a, r, by simp [e], ?_⟩
      intro hm
      rcases List.mem_cons.mp hm with e2 | e2
      · exact hc e2.symm
      · exact ha e2

/-! ## Facts about `parseAnsibleRecapLine` -/

theorem kvStep_eq (m : GoMap) (kv : Str) :
    kvStep m kv = .ok (match tokenPair kv with
      | some p => p :: m
      | none => m) := by
  unfold kvStep tokenPair
  cases hs : Split kv '=' with
  | nil => exact absurd hs (Split_ne_nil kv '=')
  | cons x t =>
    cases t with
    | nil => simp
    | cons y t2 => simp [idx, mapSet, bind, Except.bind]

theorem kvLoop_eq (m : GoMap) (segs : List Str) :
    kvLoop m segs = .ok ((segs.filterMap tokenPair).reverse ++ m) := by
  induction segs generalizing m with
  | nil => simp [kvLoop]
  | cons kv rest ih =>
    simp only [kvLoop, kvStep_eq, bind, Except.bind, ih]
    cases h : tokenPair kv <;> simp [List.filterMap_cons, h]

theorem parse_of_pieces (line a b : Str) (rest : List Str)
    (h : Split line ':' = a :: b :: rest) :
    parseAnsibleRecapLine line = .ok (nodeStatusOf (recapMap a b)) := by
  simp [parseAnsibleRecapLine, h, idx, bind, Except.bind, kvLoop_eq, mapSet, recapMap]

theorem parse_one_colon (a b : Str) (ha : ':' ∉ a) (hb : ':' ∉ b) :
    parseAnsibleRecapLine (a ++ ':' :: b) = .ok (nodeStatusOf (recapMap a b)) :=
  parse_of_pieces _ a b [] (by rw [Split_first _ _ _ ha, Split_not_mem _ _ hb])

theorem parse_two_colons (a b c : Str) (ha : ':' ∉ a) (hb : ':' ∉ b) :
    parseAnsibleRecapLine (a ++ ':' :: (b ++ ':' :: c)) = .ok (nodeStatusOf (recapMap a b)) :=
  parse_of_pieces _ a b (Split c ':')
    (by rw [Split_first _ _ _ ha, Split_first _ _ _ hb])

theorem parse_no_colon (line : Str) (h : ':' ∉ line) :
    parseAnsibleRecapLine line = .error .indexOutOfRange := by
  simp [parseAnsibleRecapLine, Split_not_mem _ _ h, idx, bind, Except.bind]

theorem parse_colon (line : Str) (h : ':' ∈ line) :
    ∃ r, parseAnsibleRecapLine line = .ok r := by
  obtain ⟨a, r, e, ha⟩ := mem_split_sep line ':' h
  cases hs : Split r ':' with
  | nil => exact absurd hs (Split_ne_nil r ':')
  | cons b rest =>
    exact ⟨_, parse_of_pieces line a b rest (by rw [e, Split_first _ _ _ ha, hs])⟩

/-! ## Facts about `Index` and `LastIndex` -/

theorem indexNat_skip_line (l t : Str) (h : '\n' ∉ l) :
    indexNat ['\n', '\n'] (l ++ t) = (indexNat ['\n', '\n'] t).map (· + l.length) := by
  induction l with
  | nil => simp
  | cons c cs ih =>
    have hc : c ≠ '\n' := fun e => h (by simp [e])
    have hcs : '\n' ∉ cs := fun e => h (by simp [e])
    have hc2 : ¬ ('\n' = c) := fun e => hc e.symm
    have hp : List.isPrefixOf ['\n', '\n'] (c :: (cs ++ t)) = false := by
      simp [List.isPrefixOf, hc2]
    rw [List.cons_append, indexNat, if_neg (by simp [hp]), ih hcs]
    cases indexNat ['\n', '\n'] t <;> simp [Nat.add_assoc]

theorem indexNat_skip_newline (c : Char) (t : Str) (hc : c ≠ '\n') :
    indexNat ['\n', '\n'] ('\n' :: c :: t)
      = (indexNat ['\n', '\n'] (c :: t)).map (· + 1) := by
  have hc2 : ¬ ('\n' = c) := fun e => hc e.symm
  rw [indexNat]
  simp [List.isPrefixOf, hc2]

theorem indexNat_block (ls : List Str) (rest : Str) (hne : ls ≠ [])
    (h : ∀ l ∈ ls, '\n' ∉ l ∧ l ≠ []) :
    indexNat ['\n', '\n'] (joinSep '\n' ls ++ '\n' :: '\n' :: rest)
      = some (joinSep '\n' ls).length := by
  induction ls with
  | nil => exact absurd rfl hne
  | cons l more ih =>
    cases more with
    | nil =>
      simp only [joinSep]
      rw [indexNat_skip_line _ _ (h l (by simp)).1]
      simp [indexNat, List.isPrefixOf]
    | cons l2 ls =>
      have h2 : ∀ x ∈ l2 :: ls, '\n' ∉ x ∧ x ≠ [] := fun x hx => h x (by simp [hx])
      have ih2 := ih (by simp) h2
      obtain ⟨hl2, hl2ne⟩ := h l2 (by simp)
      simp only [joinSep, List.append_assoc, List.cons_append]
      rw [indexNat_skip_line _ _ (h l (by simp)).1]
      cases l2 with
      | nil => exact absurd rfl hl2ne
      | cons c cs =>
        have hc : c ≠ '\n' := fun e => hl2 (by simp [e])
        cases ls with
        | nil =>
          simp only [joinSep, List.cons_append] at ih2 ⊢
          rw [indexNat_skip_newline _ _ hc, ih2]
          simp; omega
        | cons l3 ls3 =>
          simp only [joinSep, List.cons_append, List.append_assoc] at ih2 ⊢
          rw [indexNat_skip_newline _ _ hc, ih2]
          simp; omega

theorem lastIndexNat_of_absent (sub s : Str) (h : ¬ sub <:+: s) :
    lastIndexNat sub s = none := by
  induction s with
  | nil =>
    have : sub ≠ [] := fun e => h (by simp [e])
    simp [lastIndexNat, this]
  | cons c cs ih =>
    have h1 : ¬ sub <:+: cs := fun hi => h (hi.trans (List.suffix_cons c cs).isInfix)
    have h2 : ¬ sub <+: c :: cs := fun hp => h hp.isInfix
    simp only [lastIndexNat, ih h1]
    simp [List.isPrefixOf_iff_prefix, h2]

theorem infix_of_lastIndexNat (sub s : Str) (i : Nat) (h : lastIndexNat sub s = some i) :
    sub <:+: s := by
  induction s generalizing i with
  | nil =>
    by_cases e : sub = []
    · simp [e]
    · simp [lastIndexNat, e] at h
  | cons c cs ih =>
    simp only [lastIndexNat] at h
    cases hl : lastIndexNat sub cs with
    | some j => exact (ih j hl).trans (List.suffix_cons c cs).isInfix
    | none =>
      rw [hl] at h
      by_cases hp : sub.isPrefixOf (c :: cs) = true
      · exact (List.isPrefixOf_iff_prefix.mp hp).isInfix
      · simp [hp] at h

theorem lastIndexNat_append (sub p s : Str) (i : Nat) (h : lastIndexNat sub s = some i) :
    lastIndexNat sub (p ++ s) = some (p.length + i) := by
  induction p with
  | nil => simpa using h
  | cons c cs ih =>
    rw [List.cons_append, lastIndexNat, ih]
    simp only [List.length_cons, Option.some.injEq]
    omega

theorem mem_of_prefix_past (sub a b : Str) (x : Char)
    (hp : sub <+: a ++ x :: b) (hl : a.length < sub.length) : x ∈ sub := by
  induction a generalizing sub with
  | nil =>
    cases sub with
    | nil => simp at hl
    | cons s sub2 =>
      have hh : s = x := by
        have := List.isPrefixOf_iff_prefix.mpr hp
        simp [List.isPrefixOf] at this
        exact this.1
      simp [hh]
  | cons c cs ih =>
    cases sub with
    | nil => simp at hl
    | cons s sub2 =>
      have := List.isPrefixOf_iff_prefix.mpr hp
      simp only [List.cons_append, List.isPrefixOf, Bool.and_eq_true] at this
      have h2 := ih sub2 (List.isPrefixOf_iff_prefix.mp this.2) (by simpa using hl)
      simp [h2]

theorem lastIndexNat_none_iff (sub s : Str) :
    lastIndexNat sub s = none ↔ ¬ sub <:+: s := by
  constructor
  · intro h hi
    induction s with
    | nil =>
      have e : sub = [] := by simpa using hi
      simp [lastIndexNat, e] at h
    | cons c cs ih =>
      simp only [lastIndexNat] at h
      cases hcs : lastIndexNat sub cs with
      | some j => rw [hcs] at h; simp at h
      | none =>
        rw [hcs] at h
        rcases List.infix_cons_iff.mp hi with hp | hi2
        · have := List.isPrefixOf_iff_prefix.mpr hp
          simp [this] at h
        · exact ih hcs hi2
  · exact lastIndexNat_of_absent sub s

theorem not_infix_sep (sub a b : Str) (x : Char) (hx : x ∉ sub)
    (ha : ¬ sub <:+: a) (hb : ¬ sub <:+: b) : ¬ sub <:+: a ++ x :: b := by
  induction a with
  | nil =>
    intro hi
    rcases List.infix_cons_iff.mp hi with hp | hi2
    · cases sub with
      | nil => exact hb (by simp)
      | cons s st =>
        exact hx (mem_of_prefix_past (s :: st) [] b x hp (by simp))
    · exact hb hi2
  | cons c cs ih =>
    intro hi
    have hcs : ¬ sub <:+: cs := fun h => ha (h.trans (List.suffix_cons c cs).isInfix)
    rcases List.infix_cons_iff.mp (by simp at hi; exact hi) with hp | hi2
    · by_cases hl : sub.length ≤ (c :: cs).length
      · have h1 : (c :: cs) <+: (c :: cs) ++ x :: b := List.prefix_append _ _
        exact ha (List.prefix_of_prefix_length_le hp h1 hl).isInfix
      · exact hx (mem_of_prefix_past sub (c :: cs) b x hp (by omega))
    · exact ih hcs hi2

theorem lastIndexNat_here (c : Char) (st t : Str) (x : Char) (hx : x ∉ c :: st)
    (ht : ¬ (c :: st) <:+: t) :
    lastIndexNat (c :: st) ((c :: st) ++ x :: t) = some 0 := by
  have h1 : ¬ (c :: st) <:+: st := fun h => by
    have := h.length_le
    simp at this
  have h2 := (lastIndexNat_none_iff _ _).mpr (not_infix_sep (c :: st) st t x hx h1 ht)
  have h3 : List.isPrefixOf (c :: st) (c :: (st ++ x :: t)) = true :=
    List.isPrefixOf_iff_prefix.mpr (by simp)
  rw [List.cons_append, lastIndexNat, h2]
  simp [h3]

theorem newline_not_mem_banner : '\n' ∉ banner := by decide

theorem banner_length : banner.length = 80 := by decide

/-- The two slicing statements of `exec` on a log that carries a banner, a
newline, a block of non-empty lines, a blank line and a banner-free rest. -/
theorem recapBlock_general (pre block rest : Str)
    (hi : indexNat ['\n', '\n'] (block ++ '\n' :: '\n' :: rest) = some block.length)
    (hb : ¬ banner <:+: block ++ '\n' :: '\n' :: rest) :
    recapBlock (pre ++ banner ++ '\n' :: (block ++ '\n' :: '\n' :: rest))
      = .ok (block) := by
  have hl : lastIndexNat banner
      (pre ++ (banner ++ '\n' :: (block ++ '\n' :: '\n' :: rest)))
      = some (pre.length + 0) :=
    lastIndexNat_append _ _ _ _
      (lastIndexNat_here 'P' banner.tail _ '\n' newline_not_mem_banner hb)
  unfold recapBlock
  rw [List.append_assoc]
  simp only [LastIndex, hl, sliceFrom]
  have hlen : (pre ++ (banner ++ '\n' :: (block ++ '\n' :: '\n' :: rest))).length
      = pre.length + 81 + (block ++ '\n' :: '\n' :: rest).length := by
    simp [banner_length]; omega
  have hdrop : (pre ++ (banner ++ '\n' :: (block ++ '\n' :: '\n' :: rest))).drop
      (pre.length + 81) = block ++ '\n' :: '\n' :: rest := by
    have : pre ++ (banner ++ '\n' :: (block ++ '\n' :: '\n' :: rest))
        = (pre ++ (banner ++ ['\n'])) ++ (block ++ '\n' :: '\n' :: rest) := by
      simp
    rw [this]
    exact List.drop_left' (by simp [banner_length])
  have hidx : ((↑(pre.length + 0) : Int) + 81).toNat = pre.length + 81 := by omega
  rw [if_pos (by rw [hlen]; constructor <;> omega)]
  simp only [bind, Except.bind, hidx, hdrop, Index, hi, sliceTo]
  rw [if_pos ⟨by positivity, by simp; omega⟩]
  simp

theorem recapBlock_of_block (pre rest : Str) (ls : List Str) (hne : ls ≠ [])
    (h : ∀ l ∈ ls, '\n' ∉ l ∧ l ≠ [])
    (hb : ¬ banner <:+: joinSep '\n' ls ++ '\n' :: '\n' :: rest) :
    recapBlock (pre ++ banner ++ '\n' :: (joinSep '\n' ls ++ '\n' :: '\n' :: rest))
      = .ok (joinSep '\n' ls) :=
  recapBlock_general pre _ rest (indexNat_block ls rest hne h) hb

/-! ## Recap lines contain no banner -/

theorem mem_joinSep (sep c : Char) (ls : List Str) (h : c ∈ joinSep sep ls) :
    c = sep ∨ ∃ l ∈ ls, c ∈ l := by
  induction ls with
  | nil => simp [joinSep] at h
  | cons l rest ih =>
    cases rest with
    | nil => exact Or.inr ⟨l, by simp, by simpa [joinSep] using h⟩
    | cons l2 ls =>
      simp only [joinSep, List.mem_append, List.mem_cons] at h
      rcases h with h | h | h
      · exact Or.inr ⟨l, by simp, h⟩
      · exact Or.inl h
      · rcases ih h with e | ⟨x, hx, hc⟩
        · exact Or.inl e
        · exact Or.inr ⟨x, by simp [List.mem_cons] at hx ⊢; tauto, hc⟩

theorem Split_append_not_mem (a y : Str) (sep : Char) (h : sep ∉ a) (hd : Str) (tl : List Str)
    (hy : Split y sep = hd :: tl) : Split (a ++ y) sep = (a ++ hd) :: tl := by
  induction a with
  | nil => simpa using hy
  | cons c cs ih =>
    have hc : c ≠ sep := fun e => h (by simp [e])
    have hcs : sep ∉ cs := fun e => h (by simp [e])
    simp [Split, hc, ih hcs]

theorem banner_eq :
    banner = "PLAY".toList ++ ' ' :: ("RECAP".toList ++ ' ' :: List.replicate 69 '*') := by
  decide

theorem recap_mem_of_banner_inside (l first : Str) (others : List Str)
    (hs : Split l ' ' = first :: others) (hi : banner <:+: l) :
    "RECAP".toList ∈ others := by
  obtain ⟨s, t, e⟩ := hi
  have e2 : l = (s ++ "PLAY".toList) ++ ' ' ::
      ("RECAP".toList ++ ' ' :: (List.replicate 69 '*' ++ t)) := by
    rw [← e, banner_eq]; simp
  rw [e2, Split_append_sep, Split_first _ _ _ (by decide)] at hs
  cases hp : Split (s ++ "PLAY".toList) ' ' with
  | nil => exact absurd hp (Split_ne_nil _ _)
  | cons f o =>
    rw [hp] at hs
    simp only [List.cons_append, List.cons.injEq] at hs
    rw [← hs.2]
    simp

theorem IsToken.not_mem {t : Str} (h : IsToken t) (c : Char)
    (hc : c = ' ' ∨ c = ':' ∨ c = '\n') : c ∉ t := by
  obtain ⟨k, v, e, hkv⟩ := h
  intro hm
  rw [e] at hm
  have hne : c ≠ '=' := by rcases hc with e | e | e <;> rw [e] <;> decide
  have hin : c ∈ k ++ v := by
    simp only [List.mem_append, List.mem_cons] at hm ⊢
    rcases hm with h1 | h1 | h1
    · exact Or.inl h1
    · exact absurd h1 hne
    · exact Or.inr h1
  have := hkv c hin
  rcases hc with e | e | e
  · exact this.1 e
  · exact this.2.1 e
  · exact this.2.2.2 e

theorem IsToken.eq_mem {t : Str} (h : IsToken t) : '=' ∈ t := by
  obtain ⟨k, v, e, _⟩ := h
  simp [e]

theorem seg_not_mem (segs : List Str) (h : ∀ s ∈ segs, s = [] ∨ IsToken s) (c : Char)
    (hc : c = ' ' ∨ c = ':' ∨ c = '\n') : ∀ s ∈ segs, c ∉ s := by
  intro s hs
  rcases h s hs with e | ht
  · simp [e]
  · exact ht.not_mem c hc

theorem split_colon_segs (segs : List Str) (h : ∀ s ∈ segs, ' ' ∉ s) :
    ∃ q, Split (':' :: joinSep ' ' segs) ' ' = (':' :: q) :: segs.tail := by
  cases segs with
  | nil => exact ⟨[], by decide⟩
  | cons s rest =>
    have hs : ' ' ∉ (':' :: s) := by
      have := h s (by simp)
      simp only [List.mem_cons, not_or]
      exact ⟨by decide, this⟩
    cases rest with
    | nil => exact ⟨s, by simpa [joinSep] using Split_not_mem _ _ hs⟩
    | cons s2 r =>
      refine ⟨s, ?_⟩
      have h2 : ∀ x ∈ s2 :: r, ' ' ∉ x := fun x hx => h x (by simp [hx])
      have := Split_first (':' :: s) (joinSep ' ' (s2 :: r)) ' ' hs
      rw [Split_joinSep _ _ (by simp) h2] at this
      simpa [joinSep] using this

theorem split_spaces (n : Nat) (y : Str) :
    ∀ p ∈ Split (List.replicate n ' ' ++ y) ' ', p = [] ∨ p ∈ Split y ' ' := by
  induction n with
  | zero => intro p hp; exact Or.inr (by simpa using hp)
  | succ n ih =>
    intro p hp
    simp only [List.replicate_succ, List.cons_append, Split, if_true, List.mem_cons] at hp
    rcases hp with e | hp
    · exact Or.inl e
    · exact ih p hp

theorem recapLine_pieces (l : Str) (h : RecapLine l) :
    ∃ first others, Split l ' ' = first :: others ∧ ∀ p ∈ others, PieceOk p := by
  obtain ⟨name, n, segs, e, _, hname, hsegs⟩ := h
  have hsp : ' ' ∉ name := fun hm => (hname _ hm).1 rfl
  have hseg : ∀ s ∈ segs, ' ' ∉ s := seg_not_mem segs hsegs ' ' (Or.inl rfl)
  obtain ⟨q, hq⟩ := split_colon_segs segs hseg
  have htail : ∀ p ∈ segs.tail, PieceOk p := by
    intro p hp
    rcases hsegs p (List.mem_of_mem_tail hp) with e1 | ht
    · exact Or.inl e1
    · exact Or.inr (Or.inr ht.eq_mem)
  have hy : ∀ p ∈ Split (':' :: joinSep ' ' segs) ' ', PieceOk p := by
    intro p hp
    rw [hq] at hp
    rcases List.mem_cons.mp hp with e1 | hp
    · exact Or.inr (Or.inl ⟨q, e1⟩)
    · exact htail p hp
  cases n with
  | zero =>
    refine ⟨name ++ ':' :: q, segs.tail, ?_, htail⟩
    rw [e]
    simpa using Split_append_not_mem name _ ' ' hsp _ _ hq
  | succ n =>
    refine ⟨name, Split (List.replicate n ' ' ++ ':' :: joinSep ' ' segs) ' ', ?_, ?_⟩
    · rw [e]
      simpa [List.replicate_succ] using
        Split_first name (List.replicate n ' ' ++ ':' :: joinSep ' ' segs) ' ' hsp
    · intro p hp
      rcases split_spaces n _ p hp with e1 | hp2
      · exact Or.inl e1
      · exact hy p hp2

theorem recapLine_no_banner (l : Str) (h : RecapLine l) : ¬ banner <:+: l := by
  intro hi
  obtain ⟨first, others, hs, hp⟩ := recapLine_pieces l h
  rcases hp _ (recap_mem_of_banner_inside l first others hs hi) with e | ⟨q, e⟩ | e
  · exact absurd e (by decide)
  · have h0 : "RECAP".toList.head? = some ':' := by rw [e]; rfl
    exact absurd h0 (by decide)
  · exact absurd e (by decide)

theorem recapLine_basic (l : Str) (h : RecapLine l) : '\n' ∉ l ∧ l ≠ [] ∧ ':' ∈ l := by
  obtain ⟨name, n, segs, e, hne, hname, hsegs⟩ := h
  refine ⟨?_, ?_, ?_⟩
  · intro hm
    rw [e] at hm
    simp only [List.mem_append, List.mem_cons, List.mem_replicate] at hm
    rcases hm with (h1 | h1) | h1 | h1
    · exact (hname _ h1).2.2 rfl
    · exact absurd h1.2 (by decide)
    · exact absurd h1 (by decide)
    · rcases mem_joinSep _ _ _ h1 with e1 | ⟨s, hs, hc⟩
      · exact absurd e1 (by decide)
      · exact seg_not_mem segs hsegs '\n' (Or.inr (Or.inr rfl)) s hs hc
  · rw [e]; simp
  · rw [e]; simp

theorem not_infix_joinSep (sub : Str) (sep : Char) (ls : List Str) (hsub : sub ≠ [])
    (hsep : sep ∉ sub) (h : ∀ l ∈ ls, ¬ sub <:+: l) : ¬ sub <:+: joinSep sep ls := by
  induction ls with
  | nil => simpa [joinSep] using hsub
  | cons l rest ih =>
    cases rest with
    | nil => simpa [joinSep] using h l (by simp)
    | cons l2 ls =>
      simp only [joinSep]
      exact not_infix_sep sub l _ sep hsep (h l (by simp))
        (ih (fun x hx => h x (by simp [hx])))

theorem parseLines_of_colon (ls : List Str) (h : ∀ l ∈ ls, ':' ∈ l) :
    ∃ status, parseLines ls = .ok status ∧ status.length = ls.length ∧
      ls.map parseAnsibleRecapLine = status.map Except.ok := by
  induction ls with
  | nil => exact ⟨[], rfl, rfl, rfl⟩
  | cons l rest ih =>
    obtain ⟨r, hr⟩ := parse_colon l (h l (by simp))
    obtain ⟨status, hs, hlen, hmap⟩ := ih (fun x hx => h x (by simp [hx]))
    exact ⟨r :: status, by simp [parseLines, hr, hs, bind, Except.bind], by simp [hlen],
      by simp [hr, hmap]⟩

theorem parseRecap_of_block (pre rest : Str) (lines : List Str) (hne : lines ≠ [])
    (hl : ∀ l ∈ lines, RecapLine l) (hr : ¬ banner <:+: rest) :
    recapBlock (pre ++ banner ++ ['\n'] ++ joinSep '\n' lines ++ ['\n', '\n'] ++ rest)
        = .ok (joinSep '\n' lines) ∧
      ∃ status,
        parseRecap (pre ++ banner ++ ['\n'] ++ joinSep '\n' lines ++ ['\n', '\n'] ++ rest)
            = .ok { Success := aggregateSuccess status, NodeStatus := status } ∧
          status.length = lines.length ∧
          lines.map parseAnsibleRecapLine = status.map Except.ok := by
  have hb : ¬ banner <:+: joinSep '\n' lines ++ '\n' :: '\n' :: rest :=
    not_infix_sep banner _ _ '\n' newline_not_mem_banner
      (not_infix_joinSep banner '\n' lines (by decide) newline_not_mem_banner
        (fun l hm => recapLine_no_banner l (hl l hm)))
      (not_infix_sep banner [] rest '\n' newline_not_mem_banner (by decide) hr)
  have hblock := recapBlock_of_block pre rest lines hne
    (fun l hm => ⟨(recapLine_basic l (hl l hm)).1, (recapLine_basic l (hl l hm)).2.1⟩) hb
  have e : pre ++ banner ++ ['\n'] ++ joinSep '\n' lines ++ ['\n', '\n'] ++ rest
      = pre ++ banner ++ '\n' :: (joinSep '\n' lines ++ '\n' :: '\n' :: rest) := by simp
  rw [e]
  refine ⟨hblock, ?_⟩
  obtain ⟨status, hs, hlen, hmap⟩ :=
    parseLines_of_colon lines (fun l hm => (recapLine_basic l (hl l hm)).2.2)
  refine ⟨status, ?_, hlen, hmap⟩
  have hsplit : Split (joinSep '\n' lines) '\n' = lines :=
    Split_joinSep '\n' lines hne (fun l hm => (recapLine_basic l (hl l hm)).1)
  unfold parseRecap
  rw [hblock]
  simp [hsplit, hs, bind, Except.bind]


/-! ## Tokens and map lookups -/

theorem dropWhile_none (p : Char → Bool) (l : Str) (h : ∀ x ∈ l, p x = false) :
    l.dropWhile p = l := by
  cases l with
  | nil => rfl
  | cons c cs => simp [List.dropWhile, h c (by simp)]

theorem Trim_of_not_mem (s : Str) (h : ' ' ∉ s) : Trim s [' '] = s := by
  have hp : ∀ x ∈ s, (fun c => [' '].contains c) x = false := by
    intro x hx
    have : x ≠ ' ' := fun e => h (e ▸ hx)
    simp [this]
  unfold Trim
  rw [dropWhile_none _ s hp, dropWhile_none _ s.reverse (fun x hx => hp x (by simpa using hx))]
  simp

theorem tokenPair_nil : tokenPair [] = none := by decide

theorem tokenPair_token (k v : Str)
    (h : ∀ c ∈ k ++ v, c ≠ ' ' ∧ c ≠ ':' ∧ c ≠ '=' ∧ c ≠ '\n') :
    tokenPair (k ++ '=' :: v) = some (k, v) := by
  have hk : ∀ c ∈ k, c ≠ ' ' ∧ c ≠ ':' ∧ c ≠ '=' ∧ c ≠ '\n' := fun c hc => h c (by simp [hc])
  have hv : ∀ c ∈ v, c ≠ ' ' ∧ c ≠ ':' ∧ c ≠ '=' ∧ c ≠ '\n' := fun c hc => h c (by simp [hc])
  have h1 : '=' ∉ k := fun hm => (hk _ hm).2.2.1 rfl
  have h2 : '=' ∉ v := fun hm => (hv _ hm).2.2.1 rfl
  have h3 : ' ' ∉ k := fun hm => (hk _ hm).1 rfl
  have h4 : ' ' ∉ v := fun hm => (hv _ hm).1 rfl
  simp [tokenPair, Split_first _ _ _ h1, Split_not_mem _ _ h2, Trim_of_not_mem _ h3,
    Trim_of_not_mem _ h4]

theorem lookup_of_forall (K V : Str) (ps : GoMap) (hex : ∃ p ∈ ps, p.1 = K)
    (hall : ∀ p ∈ ps, p.1 = K → p.2 = V) : ps.lookup K = some V := by
  induction ps with
  | nil => simp at hex
  | cons p rest ih =>
    obtain ⟨k, v⟩ := p
    by_cases hk : K = k
    · have hv := hall (k, v) (by simp) hk.symm
      simp only at hv
      simp [List.lookup, hk, hv]
    · have hne : (K == k) = false := by simpa using hk
      simp only [List.lookup, hne]
      apply ih
      · obtain ⟨q, hq, hq1⟩ := hex
        rcases List.mem_cons.mp hq with e | hq
        · exact absurd (by rw [e] at hq1; exact hq1.symm) hk
        · exact ⟨q, hq, hq1⟩
      · exact fun q hq => hall q (by simp [hq])

theorem mapGet_of_forall (K V : Str) (ps m : GoMap) (hex : ∃ p ∈ ps, p.1 = K)
    (hall : ∀ p ∈ ps, p.1 = K → p.2 = V) : mapGet (ps.reverse ++ m) K = V := by
  have : ps.reverse.lookup K = some V :=
    lookup_of_forall K V ps.reverse
      (by obtain ⟨q, hq, e⟩ := hex; exact ⟨q, by simpa using hq, e⟩)
      (fun q hq => hall q (by simpa using hq))
  simp [mapGet, List.lookup_append, this]

theorem mapGet_of_absent (K : Str) (ps m : GoMap) (h : ∀ p ∈ ps, p.1 ≠ K) :
    mapGet (ps.reverse ++ m) K = mapGet m K := by
  have : ps.reverse.lookup K = none := by
    rw [List.lookup_eq_none_iff]
    intro q hq
    have := h q (by simpa using hq)
    simpa using fun e => this e.symm
  simp [mapGet, List.lookup_append, this]

theorem Split_joinSep_pairs (segs : List Str) (h : ∀ s ∈ segs, ' ' ∉ s) :
    (Split (joinSep ' ' segs) ' ').filterMap tokenPair = segs.filterMap tokenPair := by
  cases segs with
  | nil => decide
  | cons s rest => rw [Split_joinSep ' ' _ (by simp) h]

theorem parse_of_shape (name : Str) (n : Nat) (segs : List Str)
    (hname : ∀ c ∈ name, c ≠ ' ' ∧ c ≠ ':' ∧ c ≠ '\n')
    (hsegs : ∀ s ∈ segs, s = [] ∨ IsToken s) :
    parseAnsibleRecapLine (name ++ List.replicate n ' ' ++ ':' :: joinSep ' ' segs)
      = .ok (nodeStatusOf ((segs.filterMap tokenPair).reverse
          ++ [("node".toList, Trim (name ++ List.replicate n ' ') [' '])])) := by
  have ha : ':' ∉ name ++ List.replicate n ' ' := by
    intro hm
    simp only [List.mem_append, List.mem_replicate] at hm
    rcases hm with h1 | h1
    · exact (hname _ h1).2.1 rfl
    · exact absurd h1.2 (by decide)
  have hb : ':' ∉ joinSep ' ' segs := by
    intro hm
    rcases mem_joinSep _ _ _ hm with e | ⟨s, hs, hc⟩
    · exact absurd e (by decide)
    · exact seg_not_mem segs hsegs ':' (Or.inr (Or.inl rfl)) s hs hc
  rw [parse_one_colon _ _ ha hb, recapMap,
    Split_joinSep_pairs segs (seg_not_mem segs hsegs ' ' (Or.inl rfl))]

theorem carriesZero_parse (l : Str) (h : CarriesZero l) :
    ∃ r, parseAnsibleRecapLine l = .ok r ∧ r.Unreachable = ['0'] ∧ r.Failed = ['0'] := by
  obtain ⟨name, n, segs, e, _, hname, hsegs, hu, hf, hu2, hf2⟩ := h
  refine ⟨_, by rw [e]; exact parse_of_shape name n segs hname hsegs, ?_, ?_⟩
  · apply mapGet_of_forall
    · exact ⟨("unreachable".toList, ['0']),
        List.mem_filterMap.mpr ⟨_, hu, by decide⟩, rfl⟩
    · intro p hp hk
      obtain ⟨s, hs, hsp⟩ := List.mem_filterMap.mp hp
      rcases hsegs s hs with e1 | ⟨k, v, e1, hkv⟩
      · rw [e1, tokenPair_nil] at hsp; simp at hsp
      · rw [e1, tokenPair_token k v hkv] at hsp
        have hp2 : p = (k, v) := by simpa using hsp.symm
        rw [hp2] at hk ⊢
        simp only at hk ⊢
        have e2 : "unreachable=".toList ++ v = s := by rw [e1, hk]; rfl
        exact hu2 v (by rw [e2]; exact hs)
  · apply mapGet_of_forall
    · exact ⟨("failed".toList, ['0']),
        List.mem_filterMap.mpr ⟨_, hf, by decide⟩, rfl⟩
    · intro p hp hk
      obtain ⟨s, hs, hsp⟩ := List.mem_filterMap.mp hp
      rcases hsegs s hs with e1 | ⟨k, v, e1, hkv⟩
      · rw [e1, tokenPair_nil] at hsp; simp at hsp
      · rw [e1, tokenPair_token k v hkv] at hsp
        have hp2 : p = (k, v) := by simpa using hsp.symm
        rw [hp2] at hk ⊢
        simp only at hk ⊢
        have e2 : "failed=".toList ++ v = s := by rw [e1, hk]; rfl
        exact hf2 v (by rw [e2]; exact hs)

theorem CarriesZero.recapLine {l : Str} (h : CarriesZero l) : RecapLine l := by
  obtain ⟨name, n, segs, e, hne, hname, hsegs, _⟩ := h
  exact ⟨name, n, segs, e, hne, hname, hsegs⟩

theorem foldl_success (status : List ExecuteExitNodeStatus) (b : Bool) :
    status.foldl
        (fun success nodestatus =>
          if nodestatus.Unreachable ≠ ['0'] ∨ nodestatus.Failed ≠ ['0'] then false
          else success) b = true
      ↔ b = true ∧ ∀ s ∈ status, s.Unreachable = ['0'] ∧ s.Failed = ['0'] := by
  induction status generalizing b with
  | nil => simp
  | cons s rest ih =>
    simp only [List.foldl_cons, ih, List.mem_cons, forall_eq_or_imp]
    by_cases h : s.Unreachable ≠ ['0'] ∨ s.Failed ≠ ['0']
    · simp only [if_pos h]
      constructor
      · intro h2; exact absurd h2.1 (by simp)
      · intro h2
        rcases h with h | h
        · exact absurd h2.2.1.1 h
        · exact absurd h2.2.1.2 h
    · simp only [if_neg h]
      have h3 : s.Unreachable = ['0'] ∧ s.Failed = ['0'] := by
        constructor
        · by_contra hc; exact h (Or.inl hc)
        · by_contra hc; exact h (Or.inr hc)
      tauto

theorem aggregateSuccess_true_iff (status : List ExecuteExitNodeStatus) :
    aggregateSuccess status = true
      ↔ ∀ s ∈ status, s.Unreachable = ['0'] ∧ s.Failed = ['0'] := by
  unfold aggregateSuccess
  rw [foldl_success]
  simp

theorem parseRecap_success (logStr : Str) (o : RecapOutcome)
    (h : parseRecap logStr = .ok o) : o.Success = aggregateSuccess o.NodeStatus := by
  unfold parseRecap at h
  cases hb : recapBlock logStr with
  | error e => rw [hb] at h; simp [bind, Except.bind] at h
  | ok recap =>
    rw [hb] at h
    cases hp : parseLines (Split recap '\n') with
    | error e => simp [bind, Except.bind, hp] at h
    | ok status =>
      simp only [bind, Except.bind, hp, Except.ok.injEq] at h
      rw [← h]

theorem lineA_shape : RecapLine lineA :=
  ⟨"nodeA".toList, 1,
    [[], "ok=3".toList, "changed=1".toList, "unreachable=0".toList, "failed=0".toList],
    by decide, by decide, by decide, by
      intro s hs
      simp only [List.mem_cons, List.mem_singleton, List.not_mem_nil, or_false] at hs
      rcases hs with e | e | e | e | e
      · exact Or.inl e
      · exact Or.inr ⟨"ok".toList, "3".toList, e, by decide⟩
      · exact Or.inr ⟨"changed".toList, "1".toList, e, by decide⟩
      · exact Or.inr ⟨"unreachable".toList, "0".toList, e, by decide⟩
      · exact Or.inr ⟨"failed".toList, "0".toList, e, by decide⟩⟩

theorem lineB_shape : RecapLine lineB :=
  ⟨"nodeB".toList, 1,
    [[], "ok=2".toList, "changed=0".toList, "unreachable=0".toList, "failed=1".toList],
    by decide, by decide, by decide, by
      intro s hs
      simp only [List.mem_cons, List.mem_singleton, List.not_mem_nil, or_false] at hs
      rcases hs with e | e | e | e | e
      · exact Or.inl e
      · exact Or.inr ⟨"ok".toList, "2".toList, e, by decide⟩
      · exact Or.inr ⟨"changed".toList, "0".toList, e, by decide⟩
      · exact Or.inr ⟨"unreachable".toList, "0".toList, e, by decide⟩
      · exact Or.inr ⟨"failed".toList, "1".toList, e, by decide⟩⟩

/-! ## The claims -/

/-- C2. For a log `pre ++ banner ++ "\n" ++ block ++ "\n\n" ++ rest` whose
block is one or more recap lines joined by single newlines and whose rest
holds no banner, the recap parsing of `exec` extracts exactly the block and
returns one record per line, in line order, the i-th record being
`parseAnsibleRecapLine` of the i-th line, with `Success` computed from them. -/
theorem parseRecap_block (pre rest : Str) (lines : List Str) (hne : lines ≠ [])
    (hl : ∀ l ∈ lines, RecapLine l) (hr : ¬ banner <:+: rest) :
    recapBlock (pre ++ banner ++ ['\n'] ++ joinSep '\n' lines ++ ['\n', '\n'] ++ rest)
        = .ok (joinSep '\n' lines) ∧
      ∃ status,
        parseRecap (pre ++ banner ++ ['\n'] ++ joinSep '\n' lines ++ ['\n', '\n'] ++ rest)
            = .ok { Success := aggregateSuccess status, NodeStatus := status } ∧
          status.length = lines.length ∧
          lines.map parseAnsibleRecapLine = status.map Except.ok :=
  parseRecap_of_block pre rest lines hne hl hr

/-- C2, witness. The two-node block of the specification: the block is
extracted as it stands and gives the records of `nodeA` and `nodeB`, in that
order, with `Success = false`. -/
theorem parseRecap_block_witness :
    (recapBlock twoNodeLog = .ok (joinSep '\n' [lineA, lineB]) ∧
      ∃ status,
        parseRecap twoNodeLog
            = .ok { Success := aggregateSuccess status, NodeStatus := status } ∧
          status.length = [lineA, lineB].length ∧
          [lineA, lineB].map parseAnsibleRecapLine = status.map Except.ok) ∧
      parseRecap twoNodeLog = .ok
        { Success := false
          NodeStatus :=
            [ { NodeName := "nodeA".toList, OK := "3".toList, Changed := "1".toList,
                Unreachable := "0".toList, Failed := "0".toList, Skipped := [],
                Rescued := [], Ignored := [] },
              { NodeName := "nodeB".toList, OK := "2".toList, Changed := "0".toList,
                Unreachable := "0".toList, Failed := "1".toList, Skipped := [],
                Rescued := [], Ignored := [] } ] } :=
  ⟨parseRecap_block "PLAY [all] ***\n".toList "\nKUBOARD SPRAY ***\n".toList [lineA, lineB]
      (by simp)
      (by
        intro l hl
        simp only [List.mem_cons, List.mem_singleton, List.not_mem_nil, or_false] at hl
        rcases hl with e | e
        · rw [e]; exact lineA_shape
        · rw [e]; exact lineB_shape)
      ((lastIndexNat_none_iff _ _).mp (by decide)),
    by rfl⟩

/-- C1. `Success` is true exactly when every record has `Unreachable = "0"`
and `Failed = "0"`: for every list of records, for the outcome of every
successful recap parsing, and in particular for a block whose lines all carry
`unreachable=0` and `failed=0`, which gives `Success = true`. -/
theorem aggregateSuccess_iff_all_zero :
    (∀ status : List ExecuteExitNodeStatus,
      aggregateSuccess status = true
        ↔ ∀ s ∈ status, s.Unreachable = "0".toList ∧ s.Failed = "0".toList) ∧
    (∀ (logStr : Str) (o : RecapOutcome), parseRecap logStr = .ok o →
      (o.Success = true
        ↔ ∀ s ∈ o.NodeStatus, s.Unreachable = "0".toList ∧ s.Failed = "0".toList)) ∧
    (∀ (pre rest : Str) (lines : List Str), lines ≠ [] → (∀ l ∈ lines, CarriesZero l) →
      ¬ banner <:+: rest →
      ∃ status,
        parseRecap (pre ++ banner ++ ['\n'] ++ joinSep '\n' lines ++ ['\n', '\n'] ++ rest)
            = .ok { Success := true, NodeStatus := status } ∧
          status.length = lines.length) := by
  refine ⟨aggregateSuccess_true_iff, ?_, ?_⟩
  · intro logStr o h
    rw [parseRecap_success logStr o h]
    exact aggregateSuccess_true_iff _
  · intro pre rest lines hne hl hr
    obtain ⟨_, status, hp, hlen, hmap⟩ :=
      parseRecap_of_block pre rest lines hne (fun l hm => (hl l hm).recapLine) hr
    refine ⟨status, ?_, hlen⟩
    have hall : aggregateSuccess status = true := by
      rw [aggregateSuccess_true_iff]
      intro st hst
      have h1 : Except.ok st ∈ List.map parseAnsibleRecapLine lines := by
        rw [hmap]; exact List.mem_map.mpr ⟨st, hst, rfl⟩
      obtain ⟨l, hlm, hpl⟩ := List.mem_map.mp h1
      obtain ⟨r, hr1, hr2, hr3⟩ := carriesZero_parse l (hl l hlm)
      rw [hr1] at hpl
      have : r = st := by simpa using hpl
      rw [← this]
      exact ⟨hr2, hr3⟩
    rw [hp, hall]

theorem cons_append_head (c d : Char) {a b x : Str} (h : (c :: a) ++ x = d :: b) : c = d :=
  (List.cons.inj h).1

theorem lineA_carriesZero : CarriesZero lineA :=
  ⟨"nodeA".toList, 1,
    [[], "ok=3".toList, "changed=1".toList, "unreachable=0".toList, "failed=0".toList],
    by decide, by decide, by decide, by
      intro s hs
      simp only [List.mem_cons, List.mem_singleton, List.not_mem_nil, or_false] at hs
      rcases hs with e | e | e | e | e
      · exact Or.inl e
      · exact Or.inr ⟨"ok".toList, "3".toList, e, by decide⟩
      · exact Or.inr ⟨"changed".toList, "1".toList, e, by decide⟩
      · exact Or.inr ⟨"unreachable".toList, "0".toList, e, by decide⟩
      · exact Or.inr ⟨"failed".toList, "0".toList, e, by decide⟩,
    by decide, by decide,
    by
      intro v hv
      simp only [List.mem_cons, List.mem_singleton, List.not_mem_nil, or_false] at hv
      rcases hv with e | e | e | e | e
      · exact absurd (congrArg List.length e) (by simp)
      · exact absurd (cons_append_head 'u' 'o' e) (by decide)
      · exact absurd (cons_append_head 'u' 'c' e) (by decide)
      · simpa using e
      · exact absurd (cons_append_head 'u' 'f' e) (by decide),
    by
      intro v hv
      simp only [List.mem_cons, List.mem_singleton, List.not_mem_nil, or_false] at hv
      rcases hv with e | e | e | e | e
      · exact absurd (congrArg List.length e) (by simp)
      · exact absurd (cons_append_head 'f' 'o' e) (by decide)
      · exact absurd (cons_append_head 'f' 'c' e) (by decide)
      · exact absurd (cons_append_head 'f' 'u' e) (by decide)
      · simpa using e⟩

/-- C1, witness. A record with `failed=1` and a record without a `failed`
counter each make `Success` false, and the one-line
block of `nodeA`, which carries `unreachable=0` and `failed=0`, gives
`Success = true`. -/
theorem aggregateSuccess_iff_all_zero_witness :
    aggregateSuccess
        [{ NodeName := "nodeB".toList, OK := "2".toList, Changed := "0".toList,
           Unreachable := "0".toList, Failed := "1".toList, Skipped := [],
           Rescued := [], Ignored := [] }] ≠ true ∧
      aggregateSuccess
        [{ NodeName := "nodeC".toList, OK := "2".toList, Changed := "0".toList,
           Unreachable := "0".toList, Failed := [], Skipped := [],
           Rescued := [], Ignored := [] }] ≠ true ∧
      ∃ status,
        parseRecap ("PLAY [all] ***\n".toList ++ banner ++ ['\n'] ++ joinSep '\n' [lineA]
            ++ ['\n', '\n'] ++ "\nKUBOARD SPRAY ***\n".toList)
            = .ok { Success := true, NodeStatus := status } ∧
          status.length = [lineA].length :=
  ⟨fun h => absurd (((aggregateSuccess_iff_all_zero.1 _).mp h) _ (List.mem_singleton.mpr rfl)).2
      (by decide),
    fun h => absurd (((aggregateSuccess_iff_all_zero.1 _).mp h) _ (List.mem_singleton.mpr rfl)).2
      (by decide),
    aggregateSuccess_iff_all_zero.2.2 "PLAY [all] ***\n".toList "\nKUBOARD SPRAY ***\n".toList
      [lineA] (by simp)
      (by
        intro l hl
        rw [List.mem_singleton.mp hl]
        exact lineA_carriesZero)
      ((lastIndexNat_none_iff _ _).mp (by decide))⟩

/-- C10. `parseAnsibleRecapLine` returns a record for every line with a
colon and panics with an index out of range for every line without one, the
empty line included; so a log whose banner line is followed directly by a
blank line has the empty block, and the recap parsing panics on its single
empty line instead of producing an outcome. -/
theorem parseAnsibleRecapLine_defined_iff_colon :
    (∀ line : Str, ':' ∈ line → ∃ r, parseAnsibleRecapLine line = .ok r) ∧
    (∀ line : Str, ':' ∉ line → parseAnsibleRecapLine line = .error .indexOutOfRange) ∧
    parseAnsibleRecapLine [] = .error .indexOutOfRange ∧
    (∀ pre rest : Str, ¬ banner <:+: rest →
      recapBlock (pre ++ banner ++ ['\n'] ++ ['\n', '\n'] ++ rest) = .ok [] ∧
      parseRecap (pre ++ banner ++ ['\n'] ++ ['\n', '\n'] ++ rest)
        = .error .indexOutOfRange) := by
  refine ⟨parse_colon, parse_no_colon, parse_no_colon [] (by simp), ?_⟩
  intro pre rest hr
  have hb : ¬ banner <:+: [] ++ '\n' :: '\n' :: rest :=
    not_infix_sep banner [] _ '\n' newline_not_mem_banner (by decide)
      (not_infix_sep banner [] rest '\n' newline_not_mem_banner (by decide) hr)
  have hblock := recapBlock_general pre [] rest (by simp [indexNat, List.isPrefixOf]) hb
  have e : pre ++ banner ++ ['\n'] ++ ['\n', '\n'] ++ rest
      = pre ++ banner ++ '\n' :: ([] ++ '\n' :: '\n' :: rest) := by simp
  rw [e]
  refine ⟨hblock, ?_⟩
  unfold parseRecap
  rw [hblock]
  rfl

/-- C10, witness. A line with a colon, a line without one, and a log with
an empty recap block. -/
theorem parseAnsibleRecapLine_defined_iff_colon_witness :
    (∃ r, parseAnsibleRecapLine "node1 : ok=1".toList = .ok r) ∧
      parseAnsibleRecapLine "node1 ok=1".toList = .error .indexOutOfRange ∧
      (recapBlock ("PLAY [all] ***\n".toList ++ banner ++ ['\n'] ++ ['\n', '\n']
          ++ "KUBOARD SPRAY ***\n".toList) = .ok [] ∧
        parseRecap ("PLAY [all] ***\n".toList ++ banner ++ ['\n'] ++ ['\n', '\n']
          ++ "KUBOARD SPRAY ***\n".toList) = .error .indexOutOfRange) :=
  ⟨parseAnsibleRecapLine_defined_iff_colon.1 _ (by decide),
    parseAnsibleRecapLine_defined_iff_colon.2.1 _ (by decide),
    parseAnsibleRecapLine_defined_iff_colon.2.2.2 _ _
      ((lastIndexNat_none_iff _ _).mp (by decide))⟩

/-- C3. What the code does on a log without the banner: `LastIndex` is -1,
the slice starts at byte 80, and the recap parsing returns an outcome with
`Success = true` for `bannerFreeLog`. -/
theorem parseRecap_bannerFree_success :
    ¬ banner <:+: bannerFreeLog ∧ LastIndex bannerFreeLog banner = -1 ∧
      parseRecap bannerFreeLog = .ok
        { Success := true
          NodeStatus :=
            [{ NodeName := "node1".toList, OK := "5".toList, Changed := "0".toList,
               Unreachable := "0".toList, Failed := "0".toList, Skipped := [],
               Rescued := [], Ignored := [] }] } :=
  ⟨(lastIndexNat_none_iff _ _).mp (by decide), by decide, by rfl⟩

/-- C4. What the code does on a well-formed line with a `rescued` token:
the field `Rescued` stays empty, because the map is read at the key
`rescured`; a token with that key fills the field.  The node name is kept
in the same map under `node`, so a token `node=x` replaces it. -/
theorem parseAnsibleRecapLine_rescued :
    parseAnsibleRecapLine rescuedLine = .ok
        { NodeName := "node1".toList, OK := "1".toList, Changed := [], Unreachable := [],
          Failed := [], Skipped := [], Rescued := [], Ignored := [] } ∧
      parseAnsibleRecapLine "node1 : ok=1 rescured=2".toList = .ok
        { NodeName := "node1".toList, OK := "1".toList, Changed := [], Unreachable := [],
          Failed := [], Skipped := [], Rescued := "2".toList, Ignored := [] } ∧
      parseAnsibleRecapLine "node1 : ok=1 node=x".toList = .ok
        { NodeName := "x".toList, OK := "1".toList, Changed := [], Unreachable := [],
          Failed := [], Skipped := [], Rescued := [], Ignored := [] } :=
  ⟨by rfl, by rfl, by rfl⟩

/-- C5, counterexample. In `node1 : ok=1 unreachable=0 : failed=0` the token
`failed=0` stands after the second colon and does not reach its counter:
`Failed` is empty. -/
theorem parseAnsibleRecapLine_second_colon_dropped :
    ':' ∈ twoColonLine ∧
      parseAnsibleRecapLine twoColonLine = .ok
        { NodeName := "node1".toList, OK := "1".toList, Changed := [],
          Unreachable := "0".toList, Failed := [], Skipped := [], Rescued := [],
          Ignored := [] } ∧
      ¬ ∃ r, parseAnsibleRecapLine twoColonLine = .ok r ∧ r.Failed = "0".toList := by
  refine ⟨by decide, by rfl, ?_⟩
  rintro ⟨r, hr, hf⟩
  have h : parseAnsibleRecapLine twoColonLine = .ok
      { NodeName := "node1".toList, OK := "1".toList, Changed := [],
        Unreachable := "0".toList, Failed := [], Skipped := [], Rescued := [],
        Ignored := [] } := by rfl
  rw [h] at hr
  have : r.Failed = [] := by rw [← Except.ok.inj hr]
  rw [this] at hf
  exact absurd hf (by decide)

/-- C5, amended. `parseAnsibleRecapLine` uses the first two pieces of the
line split at its colons: with `a` the text before the first colon and `b`
the text between the first colon and the second (or the end of the line),
the result is the record of the map holding `node = Trim a` and the tokens of
`b`, whatever follows a second colon is ignored, and the node name is
`Trim a` when no token of `b` has the key `node`. -/
theorem parseAnsibleRecapLine_first_two_pieces (a b : Str) (ha : ':' ∉ a) (hb : ':' ∉ b) :
    parseAnsibleRecapLine (a ++ ':' :: b) = .ok (nodeStatusOf (recapMap a b)) ∧
      (∀ c : Str, parseAnsibleRecapLine (a ++ ':' :: (b ++ ':' :: c))
        = parseAnsibleRecapLine (a ++ ':' :: b)) ∧
      ((∀ p ∈ (Split b ' ').filterMap tokenPair, p.1 ≠ "node".toList) →
        (nodeStatusOf (recapMap a b)).NodeName = Trim a [' ']) := by
  refine ⟨parse_one_colon a b ha hb, ?_, ?_⟩
  · intro c
    rw [parse_two_colons a b c ha hb, parse_one_colon a b ha hb]
  · intro h
    show mapGet (recapMap a b) "node".toList = Trim a [' ']
    rw [recapMap, mapGet_of_absent _ _ _ h]
    simp [mapGet, List.lookup]

/-- C5, witness. The line `node1 : ok=1 unreachable=0`, alone and followed
by ` : failed=0`. -/
theorem parseAnsibleRecapLine_first_two_pieces_witness :
    parseAnsibleRecapLine ("node1 ".toList ++ ':' :: " ok=1 unreachable=0 ".toList)
        = .ok (nodeStatusOf (recapMap "node1 ".toList " ok=1 unreachable=0 ".toList)) ∧
      (∀ c : Str,
        parseAnsibleRecapLine
            ("node1 ".toList ++ ':' :: (" ok=1 unreachable=0 ".toList ++ ':' :: c))
          = parseAnsibleRecapLine ("node1 ".toList ++ ':' :: " ok=1 unreachable=0 ".toList)) ∧
      ((∀ p ∈ (Split " ok=1 unreachable=0 ".toList ' ').filterMap tokenPair,
          p.1 ≠ "node".toList) →
        (nodeStatusOf (recapMap "node1 ".toList " ok=1 unreachable=0 ".toList)).NodeName
          = Trim "node1 ".toList [' ']) :=
  parseAnsibleRecapLine_first_two_pieces "node1 ".toList " ok=1 unreachable=0 ".toList
    (by decide) (by decide)

/-! ## The control flow of `exec` -/

theorem reportOutcome_countP_unlock (e : Execute)
    (postExec : ExecuteExitStatus → Str × Option Str) (o : RecapOutcome)
    (pid runDirPath : Str) :
    (reportOutcome e postExec o pid runDirPath).countP isUnlockCluster = 0 := by
  unfold reportOutcome
  simp only []
  split <;> split <;> simp [isUnlockCluster, List.countP_cons, List.countP_append]

theorem reportOutcome_countP_add (e : Execute)
    (postExec : ExecuteExitStatus → Str × Option Str) (o : RecapOutcome)
    (pid runDirPath : Str) :
    (reportOutcome e postExec o pid runDirPath).countP isAddSuccessTask
      = if o.Success = true then 1 else 0 := by
  unfold reportOutcome
  simp only []
  split <;> split <;> simp [isAddSuccessTask, List.countP_cons, List.countP_append]

theorem finalize_countP_unlock (e : Execute) (w : World) (pid runDirPath logFilePath : Str) :
    (finalize e w pid runDirPath logFilePath).countP isUnlockCluster = 0 := by
  unfold finalize
  cases e.PostExec with
  | none => rfl
  | some hook =>
    cases hrf : w.readFile with
    | error _ => rfl
    | ok logStr =>
      cases hpr : parseRecap logStr with
      | error p => simp [hpr, isUnlockCluster]
      | ok o =>
        simp [hpr, isUnlockCluster, List.countP_cons, reportOutcome_countP_unlock]

theorem ToString_of_args (e : Execute) (argsOf : Str → List Str) (h : e.Args = some argsOf)
    (runDirPath pid : Str) : ∃ yaml, e.ToString runDirPath pid = .ok yaml := by
  unfold Execute.ToString
  rw [h]
  exact ⟨_, rfl⟩

theorem runCommand_nil (e : Execute) (w : World) (pid runDirPath logFilePath : Str)
    (hA : e.Args = none) :
    runCommand e w pid runDirPath logFilePath
      = ([Event.Panicked Panic.nilFunction], e.R_Error) := by
  unfold runCommand
  rw [hA]

theorem runCommand_failed (e : Execute) (w : World) (pid runDirPath logFilePath : Str)
    (argsOf : Str → List Str) (err : Str) (hA : e.Args = some argsOf)
    (hs : w.start = some err) :
    runCommand e w pid runDirPath logFilePath
      = ([Event.Start, Event.Remove runDirPath,
          Event.MutexUnlock
            (some ("failed to start command ".toList ++ w.cmdString ++ " : ".toList ++ err))],
         some ("failed to start command ".toList ++ w.cmdString ++ " : ".toList ++ err)) := by
  unfold runCommand
  rw [hA, hs]

theorem runCommand_started (e : Execute) (w : World) (pid runDirPath logFilePath : Str)
    (argsOf : Str → List Str) (hA : e.Args = some argsOf) (hs : w.start = none) :
    ∃ yaml, runCommand e w pid runDirPath logFilePath
      = ([Event.Start,
          Event.WriteFile (runDirPath ++ "/command.string".toList) w.cmdString,
          Event.WriteFile (runDirPath ++ "/command.yaml".toList) yaml,
          Event.Truncate, Event.LockWriteString pid,
          Event.MutexUnlock (returnedAfterStart e w), Event.Wait]
          ++ finalize e w pid runDirPath logFilePath, returnedAfterStart e w) := by
  obtain ⟨yaml, hy⟩ := ToString_of_args e argsOf hA runDirPath pid
  refine ⟨yaml, ?_⟩
  unfold runCommand
  rw [hA, hs, hy]
  unfold returnedAfterStart lockFileError
  cases w.truncate <;> cases w.writePid <;> rfl

theorem runCommand_countP_unlock (e : Execute) (w : World) (pid runDirPath logFilePath : Str) :
    (runCommand e w pid runDirPath logFilePath).1.countP isUnlockCluster = 0 := by
  cases hA : e.Args with
  | none => rw [runCommand_nil e w pid runDirPath logFilePath hA]; rfl
  | some argsOf =>
    cases hs : w.start with
    | some err => rw [runCommand_failed e w pid runDirPath logFilePath argsOf err hA hs]; rfl
    | none =>
      obtain ⟨yaml, h⟩ := runCommand_started e w pid runDirPath logFilePath argsOf hA hs
      rw [h]
      simp only [List.countP_append, finalize_countP_unlock]
      rfl

theorem execLocked_countP_unlock (e : Execute) (w : World) :
    (execLocked e w).1.countP isUnlockCluster = 0 := by
  unfold execLocked
  cases w.createHistoryDir with
  | some err => rfl
  | none =>
    cases w.createRunDir with
    | some err => rfl
    | none =>
      cases hp : e.PreExec with
      | none =>
        cases w.openFile with
        | some err => rfl
        | none =>
          simp only [List.countP_append, runCommand_countP_unlock]
          rfl
      | some preExec =>
        simp only []
        cases preExec _ with
        | some err => rfl
        | none =>
          cases w.openFile with
          | some err => rfl
          | none =>
            simp only [List.countP_append, runCommand_countP_unlock]
            rfl

theorem runCommand_handedOver (e : Execute) (w : World) (pid runDirPath logFilePath : Str) :
    (runCommand e w pid runDirPath logFilePath).1.findSome? handedOver
      = match e.Args with
        | none => none
        | some _ =>
          some (match w.start with
            | some err =>
              some ("failed to start command ".toList ++ w.cmdString ++ " : ".toList ++ err)
            | none => returnedAfterStart e w) := by
  cases hA : e.Args with
  | none => rw [runCommand_nil e w pid runDirPath logFilePath hA]; rfl
  | some argsOf =>
    cases hs : w.start with
    | some err => rw [runCommand_failed e w pid runDirPath logFilePath argsOf err hA hs]; rfl
    | none =>
      obtain ⟨yaml, h⟩ := runCommand_started e w pid runDirPath logFilePath argsOf hA hs
      rw [h]
      rfl

theorem findSome_handedOver_wrap (pre mid post : List Event)
    (hpre : pre.findSome? handedOver = none) (hpost : post.findSome? handedOver = none) :
    (pre ++ mid ++ post).findSome? handedOver = mid.findSome? handedOver := by
  rw [List.findSome?_append, List.findSome?_append, hpre, hpost, Option.none_or,
    Option.or_none]

theorem execLocked_handedOver (e : Execute) (w : World) (lockFile : Nat)
    (h : w.lockCluster = .ok lockFile) :
    (execLocked e w).1.findSome? handedOver = returned e w := by
  unfold execLocked returned startOutcome
  rw [h]
  cases w.createHistoryDir with
  | some err => rfl
  | none =>
    cases w.createRunDir with
    | some err => rfl
    | none =>
      cases hp : e.PreExec with
      | none =>
        cases w.openFile with
        | some err => rfl
        | none =>
          dsimp only [Option.bind]
          rw [List.findSome?_append, List.findSome?_append, runCommand_handedOver]
          cases e.Args with
          | none => rfl
          | some argsOf => cases w.start <;> rfl
      | some preExec =>
        dsimp only [Option.bind]
        cases preExec _ with
        | some err => rfl
        | none =>
          cases w.openFile with
          | some err => rfl
          | none =>
            dsimp only
            rw [List.findSome?_append, List.findSome?_append, runCommand_handedOver]
            cases e.Args with
            | none => rfl
            | some argsOf => cases w.start <;> rfl

theorem Exec_eq (e : Execute) (w : World) : Exec e w = returned e w := by
  unfold Exec exec
  cases h : w.lockCluster with
  | error err => simp [List.findSome?, handedOver, returned, startOutcome, h]
  | ok lockFile =>
    rw [← execLocked_handedOver e w lockFile h]
    exact findSome_handedOver_wrap [Event.LockCluster e.Cluster] (execLocked e w).1
      [Event.UnlockCluster lockFile] rfl rfl

theorem finalize_countP_add (e : Execute) (w : World) (pid runDirPath logFilePath : Str) :
    (finalize e w pid runDirPath logFilePath).countP isAddSuccessTask
      = if e.PostExec.isSome = true ∧ runSuccess w = some true then 1 else 0 := by
  cases hpe : e.PostExec with
  | none => simp [finalize, hpe]
  | some hook =>
    cases hrf : w.readFile with
    | error _ =>
      have hrs : runSuccess w = none := by simp [runSuccess, hrf]
      simp [finalize, hpe, hrf, hrs, isAddSuccessTask]
    | ok logStr =>
      cases hpr : parseRecap logStr with
      | error p =>
        have hrs : runSuccess w = none := by simp [runSuccess, hrf, hpr]
        simp [finalize, hpe, hrf, hpr, hrs, isAddSuccessTask]
      | ok o =>
        have hrs : runSuccess w = some o.Success := by simp [runSuccess, hrf, hpr]
        simp [finalize, hpe, hrf, hpr, hrs, isAddSuccessTask, List.countP_cons,
          reportOutcome_countP_add]

theorem runCommand_countP_add (e : Execute) (w : World) (pid runDirPath logFilePath : Str) :
    (runCommand e w pid runDirPath logFilePath).1.countP isAddSuccessTask
      = if e.Args.isSome = true ∧ w.start = none ∧ e.PostExec.isSome = true
            ∧ runSuccess w = some true then 1
        else 0 := by
  cases hA : e.Args with
  | none => rw [runCommand_nil e w pid runDirPath logFilePath hA]; simp [isAddSuccessTask]
  | some argsOf =>
    cases hs : w.start with
    | some err =>
      rw [runCommand_failed e w pid runDirPath logFilePath argsOf err hA hs]
      simp [isAddSuccessTask]
    | none =>
      obtain ⟨yaml, h⟩ := runCommand_started e w pid runDirPath logFilePath argsOf hA hs
      rw [h]
      simp [List.countP_cons, List.countP_append, finalize_countP_add, isAddSuccessTask]

theorem execLocked_countP_add (e : Execute) (w : World) (lockFile : Nat)
    (h : w.lockCluster = .ok lockFile) :
    (execLocked e w).1.countP isAddSuccessTask
      = if startOutcome e w = StartOutcome.started ∧ e.PostExec.isSome = true
            ∧ runSuccess w = some true then 1
        else 0 := by
  unfold execLocked startOutcome
  rw [h]
  cases w.createHistoryDir with
  | some err => simp [isAddSuccessTask]
  | none =>
    cases w.createRunDir with
    | some err => simp [isAddSuccessTask]
    | none =>
      cases hp : e.PreExec with
      | none =>
        cases w.openFile with
        | some err => simp [isAddSuccessTask]
        | none =>
          dsimp only [Option.bind]
          simp only [List.countP_append, runCommand_countP_add]
          cases hA : e.Args <;> cases hs : w.start <;>
            simp [isAddSuccessTask, List.countP_cons]
      | some preExec =>
        dsimp only [Option.bind]
        cases preExec _ with
        | some err => simp [isAddSuccessTask]
        | none =>
          cases w.openFile with
          | some err => simp [isAddSuccessTask]
          | none =>
            simp only [List.countP_append, runCommand_countP_add]
            cases hA : e.Args <;> cases hs : w.start <;>
              simp [isAddSuccessTask, List.countP_cons]

theorem exec_countP_add (e : Execute) (w : World) :
    (exec e w).events.countP isAddSuccessTask
      = if startOutcome e w = StartOutcome.started ∧ e.PostExec.isSome = true
            ∧ runSuccess w = some true then 1
        else 0 := by
  unfold exec
  cases h : w.lockCluster with
  | error err => simp [isAddSuccessTask, startOutcome, h]
  | ok lockFile =>
    simp only [List.cons_append, List.countP_cons, List.countP_append,
      execLocked_countP_add e w lockFile h]
    simp [isAddSuccessTask]

theorem exec_events_ok (e : Execute) (w : World) (lockFile : Nat)
    (h : w.lockCluster = .ok lockFile) :
    (exec e w).events
      = (Event.LockCluster e.Cluster :: (execLocked e w).1) ++ [Event.UnlockCluster lockFile] := by
  unfold exec
  rw [h]

theorem exec_events_error (e : Execute) (w : World) (err : Str)
    (h : w.lockCluster = .error err) :
    (exec e w).events = [Event.LockCluster e.Cluster, Event.MutexUnlock (some err)] := by
  unfold exec
  rw [h]

/-- C9. When `LockCluster` succeeds, `UnlockCluster` is called exactly once,
on the handle `LockCluster` returned, and it is the last call of the run,
whatever the other steps do (a failing directory creation, `PreExec`, log
file or spawn, a nil `Args`, no `PostExec`, a failed log read, a panic of the
recap parsing, a `PostExec` error); when `LockCluster` fails it is never
called. -/
theorem unlockCluster_once_and_last (e : Execute) (w : World) :
    (∀ lockFile, w.lockCluster = .ok lockFile →
      (∃ before, (exec e w).events = before ++ [Event.UnlockCluster lockFile] ∧
        before.countP isUnlockCluster = 0) ∧
      (exec e w).events.countP isUnlockCluster = 1) ∧
    (∀ err, w.lockCluster = .error err →
      (exec e w).events.countP isUnlockCluster = 0) := by
  constructor
  · intro lockFile h
    have hb : (Event.LockCluster e.Cluster :: (execLocked e w).1).countP isUnlockCluster = 0 := by
      rw [List.countP_cons, execLocked_countP_unlock]
      rfl
    refine ⟨⟨_, exec_events_ok e w lockFile h, hb⟩, ?_⟩
    rw [exec_events_ok e w lockFile h, List.countP_append, hb]
    rfl
  · intro err h
    rw [exec_events_error e w err h]
    rfl

/-- C9, witness. A run of `hookedJob`, whose `PostExec` fails, in
`goodWorld`, where `LockCluster` returns the handle 3; and the same job when
`LockCluster` fails. -/
theorem unlockCluster_once_and_last_witness :
    ((∃ before, (exec hookedJob goodWorld).events = before ++ [Event.UnlockCluster 3] ∧
        before.countP isUnlockCluster = 0) ∧
      (exec hookedJob goodWorld).events.countP isUnlockCluster = 1) ∧
    (exec hookedJob { goodWorld with lockCluster := .error "busy".toList }).events.countP
      isUnlockCluster = 0 :=
  ⟨(unlockCluster_once_and_last hookedJob goodWorld).1 3 rfl,
    (unlockCluster_once_and_last hookedJob
      { goodWorld with lockCluster := .error "busy".toList }).2 "busy".toList rfl⟩

theorem returned_eq (e : Execute) (w : World) :
    returned e w = match startOutcome e w with
      | StartOutcome.failed err => some (some err)
      | StartOutcome.panicked => none
      | StartOutcome.started =>
        some (match lockFileError w with
          | some err => some err
          | none => e.R_Error) := by
  unfold returned returnedAfterStart
  rfl

theorem startOutcome_congr (e : Execute) (w : World)
    (postExec : Option (ExecuteExitStatus → Str × Option Str))
    (writeString writeYaml addTask : Option Str) (readFile : Except Str Str) :
    startOutcome { e with PostExec := postExec }
        { w with writeCommandString := writeString, writeCommandYaml := writeYaml,
                 readFile := readFile, addSuccessTask := addTask }
      = startOutcome e w := rfl

/-- The job `usedJob` in `goodWorld`: every step succeeds and `Exec` returns
the error an earlier run left in `R_Error`. -/
theorem Exec_returns_stale_error :
    startOutcome usedJob goodWorld = StartOutcome.started ∧
      lockFileError goodWorld = none ∧
      Exec usedJob goodWorld = some (some "cannot create logFile".toList) := by
  refine ⟨by rfl, by rfl, ?_⟩
  rw [Exec_eq]
  rfl

/-- The job `noArgsJob` in `goodWorld`: `exec` panics at line 114 with the
mutex held, so `Exec` does not return. -/
theorem Exec_blocked_without_args :
    startOutcome noArgsJob goodWorld = StartOutcome.panicked ∧
      Exec noArgsJob goodWorld = none := by
  refine ⟨by rfl, ?_⟩
  rw [Exec_eq]
  rfl

/-- C7, counterexample. Every step up to and including `cmd.Start`
succeeds and `lockFile.Truncate` fails: `Exec` returns the truncate error. -/
theorem Exec_returns_truncate_error :
    startOutcome plainJob { goodWorld with truncate := some "disk full".toList }
        = StartOutcome.started ∧
      Exec plainJob { goodWorld with truncate := some "disk full".toList }
        = some (some "failed to truncate lockFile : disk full".toList) := by
  constructor
  · rfl
  · rw [Exec_eq]
    rfl

/-- C7, amended. What `Exec` returns, for every `Execute` and every outcome
of the steps: when a step up to and including `cmd.Start` fails, the error of
the first such step; when the process has started, the error of the
lock-file update (the one of `WriteString` before the one of `Truncate`), and
when both succeed the value `R_Error` had when `Exec` was called, which is no
error in a fresh `Execute`; when `Args` is nil and line 114 is reached, `exec`
panics with the mutex held and `Exec` does not return.  The artifact writes,
the log read, `PostExec` and `AddSuccessTask` have no part in the value. -/
theorem Exec_returns (e : Execute) (w : World) :
    Exec e w = (match startOutcome e w with
      | StartOutcome.failed err => some (some err)
      | StartOutcome.panicked => none
      | StartOutcome.started =>
        some (match lockFileError w with
          | some err => some err
          | none => e.R_Error)) ∧
    ∀ (postExec : Option (ExecuteExitStatus → Str × Option Str))
      (writeString writeYaml addTask : Option Str) (readFile : Except Str Str),
      Exec { e with PostExec := postExec }
          { w with writeCommandString := writeString, writeCommandYaml := writeYaml,
                   readFile := readFile, addSuccessTask := addTask }
        = Exec e w := by
  refine ⟨by rw [Exec_eq, returned_eq], ?_⟩
  intro postExec writeString writeYaml addTask readFile
  rw [Exec_eq, Exec_eq, returned_eq, returned_eq, startOutcome_congr]
  rfl

/-- C8, counterexample. `plainJob` has no `PostExec`; in `goodWorld` the
process starts and the log of the run has an all-zero recap, so the aggregate
success of the run is true, yet `AddSuccessTask` is not called. -/
theorem addSuccessTask_not_called_without_hook :
    startOutcome plainJob goodWorld = StartOutcome.started ∧
      runSuccess goodWorld = some true ∧
      (exec plainJob goodWorld).events.countP isAddSuccessTask = 0 := by
  refine ⟨by rfl, by rfl, ?_⟩
  rw [exec_countP_add]
  rfl

/-- C8, amended. `AddSuccessTask` is called once when the process has
started, a `PostExec` hook is registered, and the log is read back and parsed
with `Success = true`; in every other run it is not called at all (process
not started, no hook, failed log read, panic of the recap parsing,
`Success = false`).  An error of the hook changes nothing. -/
theorem addSuccessTask_count (e : Execute) (w : World) :
    (exec e w).events.countP isAddSuccessTask
      = if startOutcome e w = StartOutcome.started ∧ e.PostExec.isSome = true
            ∧ runSuccess w = some true then 1
        else 0 :=
  exec_countP_add e w

/-! ## The order of run identifiers -/

theorem digit_mod_toNat (a : Nat) : (digit (a % 10)).toNat = 48 + a % 10 := by
  have h : a % 10 < 10 := Nat.mod_lt _ (by decide)
  generalize a % 10 = d at h
  interval_cases d <;> rfl

theorem strLess_cons_same (c : Char) (x y : Str) :
    strLess (c :: x) (c :: y) = strLess x y := by
  simp [strLess]

theorem strLess_digit_mod (a b : Nat) (x y : Str) :
    strLess (digit (a % 10) :: x) (digit (b % 10) :: y)
      = if a % 10 < b % 10 then true else if b % 10 < a % 10 then false else strLess x y := by
  simp [strLess, digit_mod_toNat]

theorem strLess_append_same (p x y : Str) : strLess (p ++ x) (p ++ y) = strLess x y := by
  induction p with
  | nil => rfl
  | cons c cs ih => rw [List.cons_append, List.cons_append, strLess_cons_same, ih]

theorem strLess_irrefl (x : Str) : strLess x x = false := by
  induction x with
  | nil => rfl
  | cons c cs ih => rw [strLess_cons_same, ih]

theorem strLess_asymm (x y : Str) (h : strLess x y = true) : strLess y x = false := by
  induction x generalizing y with
  | nil => cases y <;> simp [strLess] at h ⊢
  | cons a as ih =>
    cases y with
    | nil => simp [strLess] at h
    | cons b bs =>
      simp only [strLess] at h ⊢
      by_cases h1 : a.toNat < b.toNat
      · have h2 : ¬ b.toNat < a.toNat := by omega
        simp [h1, h2]
      · by_cases h2 : b.toNat < a.toNat
        · simp [h1, h2] at h
        · simp only [h1, h2, if_false] at h ⊢
          exact ih bs h

theorem formatTime_eq (t : Instant) : formatTime t = formatSeconds t ++ formatFrac t.milli := by
  simp [formatTime, formatSeconds]

theorem runId_eq (t : Instant) (type : Str) :
    runId t type = formatSeconds t ++ (formatFrac t.milli ++ '_' :: type) := by
  simp [runId, formatTime_eq]

theorem strLess_pad2 (a b : Nat) (x y : Str) (ha : a < 100) (hb : b < 100) :
    strLess (pad2 a ++ x) (pad2 b ++ y)
      = if a < b then true else if b < a then false else strLess x y := by
  simp only [pad2, List.cons_append, List.nil_append, strLess_digit_mod]
  split_ifs <;> first | rfl | (exfalso; omega)

theorem strLess_pad4 (a b : Nat) (x y : Str) (ha : a < 10000) (hb : b < 10000) :
    strLess (pad4 a ++ x) (pad4 b ++ y)
      = if a < b then true else if b < a then false else strLess x y := by
  simp only [pad4, List.cons_append, List.nil_append, strLess_digit_mod]
  split_ifs <;> first | rfl | (exfalso; omega)

theorem formatSeconds_append (t : Instant) (x : Str) :
    formatSeconds t ++ x
      = pad4 t.year ++ ('-' :: (pad2 t.month ++ ('-' :: (pad2 t.day ++ ('_' :: (pad2 t.hour
          ++ ('-' :: (pad2 t.minute ++ ('-' :: (pad2 t.second ++ x)))))))))) := by
  simp [formatSeconds]

theorem ite_lex_step (a b : Nat) (r : Bool) (P : Prop) (hP : P → r = true)
    (h : a < b ∨ (a = b ∧ P)) :
    (if a < b then true else if b < a then false else r) = true := by
  rcases h with h | ⟨h, hp⟩
  · simp [h]
  · simp [h, hP hp]

theorem ite_lex_last (a b : Nat) (r : Bool) (h : a < b) :
    (if a < b then true else if b < a then false else r) = true := by
  simp [h]

theorem strLess_of_secBefore (t1 t2 : Instant) (h1 : t1.Valid) (h2 : t2.Valid)
    (h : t1.secBefore t2) (x y : Str) :
    strLess (formatSeconds t1 ++ x) (formatSeconds t2 ++ y) = true := by
  unfold Instant.Valid at h1 h2
  unfold Instant.secBefore at h
  rw [formatSeconds_append, formatSeconds_append,
    strLess_pad4 _ _ _ _ (by omega) (by omega), strLess_cons_same,
    strLess_pad2 _ _ _ _ (by omega) (by omega), strLess_cons_same,
    strLess_pad2 _ _ _ _ (by omega) (by omega), strLess_cons_same,
    strLess_pad2 _ _ _ _ (by omega) (by omega), strLess_cons_same,
    strLess_pad2 _ _ _ _ (by omega) (by omega), strLess_cons_same,
    strLess_pad2 _ _ _ _ (by omega) (by omega)]
  exact ite_lex_step _ _ _ _ (ite_lex_step _ _ _ _ (ite_lex_step _ _ _ _
    (ite_lex_step _ _ _ _ (ite_lex_step _ _ _ _ (ite_lex_last _ _ _))))) h

theorem formatSeconds_of_sameSecond (t1 t2 : Instant) (h : t1.sameSecond t2) :
    formatSeconds t1 = formatSeconds t2 := by
  obtain ⟨a, b, c, d, e, f⟩ := h
  simp [formatSeconds, a, b, c, d, e, f]

theorem fracDigits_eq (ms : Nat) :
    fracDigits ms =
      if ms % 10 ≠ 0 then [ms / 100 % 10, ms / 10 % 10, ms % 10]
      else if ms / 10 % 10 ≠ 0 then [ms / 100 % 10, ms / 10 % 10]
      else if ms / 100 % 10 ≠ 0 then [ms / 100 % 10]
      else [] := by
  unfold fracDigits
  by_cases h1 : ms % 10 = 0
  · by_cases h2 : ms / 10 % 10 = 0
    · by_cases h3 : ms / 100 % 10 = 0
      · simp [h1, h2, h3, List.dropWhile]
      · have e3 : (ms / 100 % 10 == 0) = false := by simp [h3]
        simp [h1, h2, h3, e3, List.dropWhile]
    · have e2 : (ms / 10 % 10 == 0) = false := by simp [h2]
      simp [h1, h2, e2, List.dropWhile]
  · have e1 : (ms % 10 == 0) = false := by simp [h1]
    simp [h1, e1, List.dropWhile]

theorem strLess_dot_us (x y : Str) : strLess ('.' :: x) ('_' :: y) = true := by
  simp [strLess]

theorem strLess_us_dot (x y : Str) : strLess ('_' :: x) ('.' :: y) = false := by
  simp [strLess]

theorem strLess_digit_us (a : Nat) (x y : Str) :
    strLess (digit (a % 10) :: x) ('_' :: y) = true := by
  have h : a % 10 < 10 := Nat.mod_lt _ (by decide)
  simp only [strLess, digit_mod_toNat]
  have : '_'.toNat = 95 := rfl
  rw [this, if_pos (by omega)]

theorem strLess_us_digit (a : Nat) (x y : Str) :
    strLess ('_' :: y) (digit (a % 10) :: x) = false := by
  have h : a % 10 < 10 := Nat.mod_lt _ (by decide)
  simp only [strLess, digit_mod_toNat]
  have : '_'.toNat = 95 := rfl
  rw [this, if_neg (by omega), if_pos (by omega)]

theorem frac_order (ms1 ms2 : Nat) (h : ms1 < ms2) (h2 : ms2 < 1000) (T : Str) :
    (¬ fracDigits ms1 <+: fracDigits ms2 →
      strLess (formatFrac ms1 ++ '_' :: T) (formatFrac ms2 ++ '_' :: T) = true) ∧
    (fracDigits ms1 <+: fracDigits ms2 →
      strLess (formatFrac ms2 ++ '_' :: T) (formatFrac ms1 ++ '_' :: T) = true) := by
  unfold formatFrac
  rw [fracDigits_eq ms1, fracDigits_eq ms2]
  split_ifs <;>
    simp only [List.map, List.cons_append, List.nil_append, strLess_cons_same,
      strLess_digit_mod, strLess_dot_us, strLess_us_dot, strLess_digit_us, strLess_us_digit,
      List.cons_prefix_cons, List.nil_prefix, List.prefix_nil, strLess_irrefl]
  all_goals
    constructor <;> intro hh <;> (try simp at hh) <;> (try split_ifs) <;>
      first | rfl | trivial | (exfalso; omega)

theorem not_sameSecond_of_secBefore (t1 t2 : Instant) (h : t1.secBefore t2) :
    ¬ t1.sameSecond t2 := by
  unfold Instant.secBefore at h
  unfold Instant.sameSecond
  omega

theorem milli_lt (t : Instant) (h : t.Valid) : t.milli < 1000 := by
  unfold Instant.Valid at h
  unfold Instant.milli
  omega

theorem runId_order_aux (t1 t2 : Instant) (type : Str) (h1 : t1.Valid) (h2 : t2.Valid)
    (h : t1.milliBefore t2) :
    runId t1 type ≠ runId t2 type ∧
      (strLess (runId t1 type) (runId t2 type) = true
        ↔ ¬ (t1.sameSecond t2 ∧ fracDigits t1.milli <+: fracDigits t2.milli)) ∧
      (t1.sameSecond t2 ∧ fracDigits t1.milli <+: fracDigits t2.milli →
        strLess (runId t2 type) (runId t1 type) = true) := by
  rcases h with h | ⟨hs, hm⟩
  · have hlt : strLess (runId t1 type) (runId t2 type) = true := by
      rw [runId_eq, runId_eq]
      exact strLess_of_secBefore t1 t2 h1 h2 h _ _
    have hns := not_sameSecond_of_secBefore t1 t2 h
    refine ⟨?_, ?_, ?_⟩
    · intro e
      rw [e, strLess_irrefl] at hlt
      exact absurd hlt (by decide)
    · exact ⟨fun _ hc => hns hc.1, fun _ => hlt⟩
    · exact fun hc => absurd hc.1 hns
  · have hb := formatSeconds_of_sameSecond t1 t2 hs
    obtain ⟨f1, f2⟩ := frac_order t1.milli t2.milli hm (milli_lt t2 h2) type
    have e12 : strLess (runId t1 type) (runId t2 type)
        = strLess (formatFrac t1.milli ++ '_' :: type) (formatFrac t2.milli ++ '_' :: type) := by
      rw [runId_eq, runId_eq, hb, strLess_append_same]
    have e21 : strLess (runId t2 type) (runId t1 type)
        = strLess (formatFrac t2.milli ++ '_' :: type) (formatFrac t1.milli ++ '_' :: type) := by
      rw [runId_eq, runId_eq, hb, strLess_append_same]
    refine ⟨?_, ?_, ?_⟩
    · intro e
      by_cases hp : fracDigits t1.milli <+: fracDigits t2.milli
      · have := f2 hp
        rw [← e21, e, strLess_irrefl] at this
        exact absurd this (by decide)
      · have := f1 hp
        rw [← e12, e, strLess_irrefl] at this
        exact absurd this (by decide)
    · constructor
      · intro hlt hc
        have := strLess_asymm _ _ (f2 hc.2)
        rw [← e12, hlt] at this
        exact absurd this (by decide)
      · intro hn
        rw [e12]
        exact f1 (fun hp => hn ⟨hs, hp⟩)
    · intro hc
      rw [e21]
      exact f2 hc.2

/-- C6, counterexample. A whole second and the millisecond after it, with
the tag `install`: the identifier of the later reading sorts first. -/
theorem runId_not_monotone :
    wholeSecond.Valid ∧ oneMilliLater.Valid ∧ wholeSecond.milliBefore oneMilliLater ∧
      runId wholeSecond "install".toList = "2024-05-17_09-03-07_install".toList ∧
      runId oneMilliLater "install".toList = "2024-05-17_09-03-07.001_install".toList ∧
      strLess (runId wholeSecond "install".toList) (runId oneMilliLater "install".toList)
        = false ∧
      strLess (runId oneMilliLater "install".toList) (runId wholeSecond "install".toList)
        = true := by
  refine ⟨by unfold Instant.Valid; decide, by unfold Instant.Valid; decide, ?_,
    by rfl, by rfl, by rfl, by rfl⟩
  right
  exact ⟨by unfold Instant.sameSecond; decide, by decide⟩

/-- C6, amended. For two readings of the local clock with four-digit years
of which the first lies in an earlier calendar millisecond (two instants at
least a millisecond apart with no step back of the zone offset between
them), and every tag, the two run identifiers are different; the first sorts strictly before the second exactly when the
readings lie in different seconds or the fraction digits printed for the
first are not a prefix of those printed for the second; in the remaining
case (same second, prefix, as for a whole second and any later reading of
that second) the first sorts strictly after the second. -/
theorem runId_order (t1 t2 : Instant) (type : Str) (h1 : t1.Valid) (h2 : t2.Valid)
    (h : t1.milliBefore t2) :
    runId t1 type ≠ runId t2 type ∧
      (strLess (runId t1 type) (runId t2 type) = true
        ↔ ¬ (t1.sameSecond t2 ∧ fracDigits t1.milli <+: fracDigits t2.milli)) ∧
      (t1.sameSecond t2 ∧ fracDigits t1.milli <+: fracDigits t2.milli →
        strLess (runId t2 type) (runId t1 type) = true) :=
  runId_order_aux t1 t2 type h1 h2 h

/-- C6, witness. A whole second and the second after it. -/
theorem runId_order_witness :
    (wholeSecond.Valid ∧ oneSecondLater.Valid ∧ wholeSecond.milliBefore oneSecondLater) ∧
      runId wholeSecond "install".toList ≠ runId oneSecondLater "install".toList ∧
      (strLess (runId wholeSecond "install".toList) (runId oneSecondLater "install".toList)
          = true
        ↔ ¬ (wholeSecond.sameSecond oneSecondLater
              ∧ fracDigits wholeSecond.milli <+: fracDigits oneSecondLater.milli)) ∧
      (wholeSecond.sameSecond oneSecondLater
          ∧ fracDigits wholeSecond.milli <+: fracDigits oneSecondLater.milli →
        strLess (runId oneSecondLater "install".toList) (runId wholeSecond "install".toList)
          = true) :=
  have hv1 : wholeSecond.Valid := by unfold Instant.Valid; decide
  have hv2 : oneSecondLater.Valid := by unfold Instant.Valid; decide
  have hb : wholeSecond.milliBefore oneSecondLater :=
    Or.inl (by unfold Instant.secBefore; decide)
  ⟨⟨hv1, hv2, hb⟩, runId_order wholeSecond oneSecondLater "install".toList hv1 hv2 hb⟩

end Kuboard
